import Mathlib

/-!
Formal model of the BiG-SCAPE pairwise-distance engine (bigscape.py, functions.py,
src/big_scape/distance.py) and proofs about its specification.

Python strings are modelled as `List Char`, Python ints as `ℕ`/`ℤ`, Python floats as
exact rationals `ℚ` (so float rounding is idealised away; all stated equalities are
exact). Python dictionaries keyed by strings are modelled as total functions with the
`defaultdict(int)` default built in where the source uses one. The external
`scipy.optimize.linear_sum_assignment` call is modelled by its contract: the minimum
total cost over all one-to-one assignments of the smaller matrix dimension.
-/

set_option maxRecDepth 8000
set_option maxHeartbeats 1600000

namespace BigScape

/-- A Python string (domain identifier, gene token, aligned sequence) modelled as its
list of characters. -/
abbrev PyStr := List Char

/-- Conversion helper used to write concrete inputs. -/
def pys (s : String) : PyStr := s.toList

/-- The test `domain[:7] in anchor_domains` (bigscape.py lines 577/583, 868, 960):
anchor membership looks only at the first 7 characters of a domain identifier. -/
def isAnchor (anchors : List PyStr) (d : PyStr) : Bool :=
  anchors.contains (d.take 7)

/-- Count of identical non-gap columns of two aligned sequences
(bigscape.py lines 943-946). -/
def seqMatches (sa sb : PyStr) : ℕ :=
  (sa.zip sb).countP (fun p => p.1 == p.2 && !(p.1 == '-'))

/-- Count of columns where both aligned sequences have the gap character
(bigscape.py lines 943-948). -/
def seqGaps (sa sb : PyStr) : ℕ :=
  (sa.zip sb).countP (fun p => p.1 == p.2 && (p.1 == '-'))

/-- Distance between two aligned domain sequences, bigscape.py lines 932-950:
`1 - matches/(seq_length - gaps)`; when the lengths differ only the shorter prefix is
compared (line 939, which `List.zip` does implicitly). In `ℚ`, division by zero
yields 0. -/
def seqDist (sa sb : PyStr) : ℚ :=
  1 - (seqMatches sa sb : ℚ) / (((sa.zip sb).length - seqGaps sa sb : ℕ) : ℚ)

theorem countP_add_countP_le_length {α : Type} (p q : α → Bool)
    (h : ∀ a, p a = true → q a = false) (l : List α) :
    l.countP p + l.countP q ≤ l.length := by
  induction l with
  | nil => simp
  | cons x xs ih =>
    rcases Bool.eq_false_or_eq_true (p x) with hp | hp
    · have hqf := h x hp
      rw [List.countP_cons_of_pos p xs hp,
        List.countP_cons_of_neg q xs (by simp [hqf]), List.length_cons]
      omega
    · rw [List.countP_cons_of_neg p xs (by simp [hp]), List.length_cons]
      rcases Bool.eq_false_or_eq_true (q x) with hq | hq
      · rw [List.countP_cons_of_pos q xs hq]
        omega
      · rw [List.countP_cons_of_neg q xs (by simp [hq])]
        omega

theorem seqMatches_le (sa sb : PyStr) :
    seqMatches sa sb ≤ (sa.zip sb).length - seqGaps sa sb := by
  unfold seqMatches seqGaps
  have hsum := countP_add_countP_le_length
    (fun p : Char × Char => p.1 == p.2 && !(p.1 == '-'))
    (fun p : Char × Char => p.1 == p.2 && (p.1 == '-'))
    (by
      intro a ha
      simp only [Bool.and_eq_true, Bool.not_eq_true'] at ha
      simp [ha.1, ha.2])
    (sa.zip sb)
  omega

theorem seqDist_nonneg (sa sb : PyStr) : 0 ≤ seqDist sa sb := by
  unfold seqDist
  simp only [sub_nonneg]
  rcases Nat.eq_zero_or_pos ((sa.zip sb).length - seqGaps sa sb) with h0 | hpos
  · have hm : seqMatches sa sb = 0 := by have := seqMatches_le sa sb; omega
    simp [hm, h0]
  · rw [div_le_one (by exact_mod_cast hpos)]
    exact_mod_cast seqMatches_le sa sb

theorem seqDist_le_one (sa sb : PyStr) : seqDist sa sb ≤ 1 := by
  unfold seqDist
  simp only [sub_le_self_iff]
  positivity

theorem zip_self_eq_map_pair (s : PyStr) : s.zip s = s.map (fun c => (c, c)) := by
  induction s with
  | nil => rfl
  | cons c cs ih => simpa [List.zip_cons_cons] using ih

/-- Comparing an aligned sequence with itself gives distance 0, provided the sequence
contains at least one non-gap character. -/
theorem seqDist_self (s : PyStr) (h : s.any (fun c => !(c == '-'))) :
    seqDist s s = 0 := by
  unfold seqDist seqMatches seqGaps
  rw [zip_self_eq_map_pair s]
  simp only [List.countP_map, List.length_map]
  have hm : (List.countP ((fun p : Char × Char => p.1 == p.2 && !(p.1 == '-')) ∘
      fun c => (c, c)) s) = List.countP (fun c => !(c == '-')) s := by
    apply List.countP_congr
    intro c _
    simp [Function.comp]
  have hg : (List.countP ((fun p : Char × Char => p.1 == p.2 && (p.1 == '-')) ∘
      fun c => (c, c)) s) = List.countP (fun c => (c == '-')) s := by
    apply List.countP_congr
    intro c _
    simp [Function.comp]
  rw [hm, hg]
  have hsplit := List.length_eq_countP_add_countP (p := fun c : Char => c == '-') (l := s)
  have hnot : List.countP (fun c : Char => !(c == '-')) s ≠ 0 := by
    rcases List.any_eq_true.mp h with ⟨c, hc, hcne⟩
    have hpos : 0 < List.countP (fun c : Char => !(c == '-')) s :=
      List.countP_pos_iff.mpr ⟨c, hc, hcne⟩
    omega
  have hcompl : List.countP (fun c : Char => !(c == '-')) s
      = List.countP (fun c : Char => ¬ ((c == '-') = true)) s := by
    apply List.countP_congr
    intro c _
    simp
  have hlen : s.length - List.countP (fun c : Char => (c == '-')) s
      = List.countP (fun c : Char => !(c == '-')) s := by
    rw [hcompl]
    omega
  rw [hlen, div_self (by exact_mod_cast hnot)]
  ring

/-- The column tests of `seqDist` are symmetric in the two sequences. -/
theorem seqDist_comm (sa sb : PyStr) : seqDist sa sb = seqDist sb sa := by
  unfold seqDist seqMatches seqGaps
  rw [← List.zip_swap sa sb]
  simp only [List.countP_map, List.length_map]
  have e1 : List.countP ((fun p : Char × Char => p.1 == p.2 && !(p.1 == '-')) ∘ Prod.swap)
      (sa.zip sb) = List.countP (fun p : Char × Char => p.1 == p.2 && !(p.1 == '-'))
      (sa.zip sb) := by
    apply List.countP_congr
    rintro ⟨x, y⟩ _
    by_cases hxy : x = y
    · subst hxy; simp [Function.comp, Prod.swap]
    · have h1 : (x == y) = false := by simp [hxy]
      have h2 : (y == x) = false := by simp [Ne.symm hxy]
      simp [Function.comp, Prod.swap, h1, h2]
  have e2 : List.countP ((fun p : Char × Char => p.1 == p.2 && (p.1 == '-')) ∘ Prod.swap)
      (sa.zip sb) = List.countP (fun p : Char × Char => p.1 == p.2 && (p.1 == '-'))
      (sa.zip sb) := by
    apply List.countP_congr
    rintro ⟨x, y⟩ _
    by_cases hxy : x = y
    · subst hxy; simp [Function.comp, Prod.swap]
    · have h1 : (x == y) = false := by simp [hxy]
      have h2 : (y == x) = false := by simp [Ne.symm hxy]
      simp [Function.comp, Prod.swap, h1, h2]
  rw [e1, e2]

/-- The injective functions from `Fin a` to `Fin b`, as a finite set. -/
def injFuns (a b : ℕ) : Finset (Fin a → Fin b) :=
  Finset.univ.filter Function.Injective

theorem injFuns_nonempty {a b : ℕ} (h : a ≤ b) : (injFuns a b).Nonempty := by
  refine ⟨Fin.castLE h, ?_⟩
  simp only [injFuns, Finset.mem_filter, Finset.mem_univ, true_and]
  exact Fin.castLE_injective h

/-- Minimum assignment cost over all injective row-to-column assignments of an
`a × b` cost matrix, for `a ≤ b` (0 when no injective assignment exists). -/
def minInjCost (a b : ℕ) (M : ℕ → ℕ → ℚ) : ℚ :=
  if h : (injFuns a b).Nonempty then
    (injFuns a b).inf' h (fun f => ∑ i : Fin a, M i.val (f i).val)
  else 0

/-- Model of `linear_sum_assignment(DistanceMatrix)` followed by the cost sum
(bigscape.py lines 953-954): scipy assigns every row to a distinct column when
`a ≤ b`, otherwise every column to a distinct row, minimising the total cost. -/
def minAssignCost (a b : ℕ) (M : ℕ → ℕ → ℚ) : ℚ :=
  if a ≤ b then minInjCost a b M else minInjCost b a (fun i j => M j i)

theorem minInjCost_nonneg (a b : ℕ) (M : ℕ → ℕ → ℚ) (hM : ∀ i j, 0 ≤ M i j) :
    0 ≤ minInjCost a b M := by
  unfold minInjCost
  split
  · apply Finset.le_inf'
    intro f _
    exact Finset.sum_nonneg (fun i _ => hM i.val (f i).val)
  · exact le_refl 0

theorem minInjCost_le_card {a b : ℕ} (h : a ≤ b) (M : ℕ → ℕ → ℚ)
    (hM : ∀ i j, M i j ≤ 1) : minInjCost a b M ≤ a := by
  unfold minInjCost
  rw [dif_pos (injFuns_nonempty h)]
  have hmem : Fin.castLE h ∈ injFuns a b := by
    simp only [injFuns, Finset.mem_filter, Finset.mem_univ, true_and]
    exact Fin.castLE_injective h
  have h1 : (injFuns a b).inf' (injFuns_nonempty h) (fun f => ∑ i : Fin a, M i.val (f i).val)
      ≤ ∑ i : Fin a, M i.val ((Fin.castLE h) i).val := Finset.inf'_le _ hmem
  have h2 : (∑ i : Fin a, M i.val ((Fin.castLE h) i).val) ≤ ∑ _i : Fin a, (1 : ℚ) :=
    Finset.sum_le_sum (fun i _ => hM _ _)
  have h3 : (∑ _i : Fin a, (1 : ℚ)) = a := by simp
  linarith

/-- For a square matrix, the minimum assignment cost of the transpose equals that of
the matrix itself (assignments of a square matrix are permutations, and inverting the
optimal permutation transposes the selected entries). -/
theorem minInjCost_flip_square (n : ℕ) (M : ℕ → ℕ → ℚ) :
    minInjCost n n (fun i j => M j i) = minInjCost n n M := by
  have key : ∀ N : ℕ → ℕ → ℚ, minInjCost n n (fun i j => N j i) ≤ minInjCost n n N := by
    intro N
    unfold minInjCost
    rw [dif_pos (injFuns_nonempty (le_refl n)), dif_pos (injFuns_nonempty (le_refl n))]
    obtain ⟨f, hfmem, hfeq⟩ := Finset.exists_mem_eq_inf' (injFuns_nonempty (le_refl n))
      (fun f => ∑ i : Fin n, N i.val (f i).val)
    have hinj : Function.Injective f := by
      simpa only [injFuns, Finset.mem_filter, Finset.mem_univ, true_and] using hfmem
    have hbij : Function.Bijective f := Finite.injective_iff_bijective.mp hinj
    set e := Equiv.ofBijective f hbij with he
    have hgmem : ⇑e.symm ∈ injFuns n n := by
      simp only [injFuns, Finset.mem_filter, Finset.mem_univ, true_and]
      exact e.symm.injective
    have hcost : (∑ i : Fin n, N (e.symm i).val i.val) = ∑ i : Fin n, N i.val (f i).val := by
      rw [← Equiv.sum_comp e (fun i => N (e.symm i).val i.val)]
      apply Finset.sum_congr rfl
      intro j _
      rw [Equiv.symm_apply_apply]
      rfl
    have hle : (injFuns n n).inf' (injFuns_nonempty (le_refl n))
        (fun g => ∑ i : Fin n, N (g i).val i.val)
        ≤ ∑ i : Fin n, N (e.symm i).val i.val := Finset.inf'_le _ hgmem
    rw [hfeq]
    calc (injFuns n n).inf' (injFuns_nonempty (le_refl n))
          (fun g => ∑ i : Fin n, N (g i).val i.val) ≤
        ∑ i : Fin n, N (e.symm i).val i.val := hle
      _ = ∑ i : Fin n, N i.val (f i).val := hcost
  exact le_antisymm (key M) (by simpa using key (fun i j => M j i))

theorem minAssignCost_flip (a b : ℕ) (M : ℕ → ℕ → ℚ) :
    minAssignCost b a (fun i j => M j i) = minAssignCost a b M := by
  unfold minAssignCost
  rcases lt_trichotomy a b with hab | hab | hab
  · rw [if_neg (by omega), if_pos (le_of_lt hab)]
  · subst hab
    rw [if_pos (le_refl a), if_pos (le_refl a)]
    exact minInjCost_flip_square a M
  · rw [if_pos (le_of_lt hab), if_neg (by omega)]

theorem minAssignCost_nonneg (a b : ℕ) (M : ℕ → ℕ → ℚ) (hM : ∀ i j, 0 ≤ M i j) :
    0 ≤ minAssignCost a b M := by
  unfold minAssignCost
  split
  · exact minInjCost_nonneg a b M hM
  · exact minInjCost_nonneg b a _ (fun i j => hM j i)

theorem minAssignCost_le_min (a b : ℕ) (M : ℕ → ℕ → ℚ) (hM : ∀ i j, M i j ≤ 1) :
    minAssignCost a b M ≤ min a b := by
  unfold minAssignCost
  split
  · next h => simpa [min_eq_left h] using minInjCost_le_card h M hM
  · next h =>
    have hba : b ≤ a := le_of_not_le h
    simpa [min_eq_right hba] using minInjCost_le_card hba (fun i j => M j i) (fun i j => hM j i)

/-- The assignment cost of a square matrix with zero diagonal and nonnegative entries
is zero (the identity assignment is optimal). -/
theorem minAssignCost_diag_zero (n : ℕ) (M : ℕ → ℕ → ℚ) (hM : ∀ i j, 0 ≤ M i j)
    (hdiag : ∀ i, i < n → M i i = 0) : minAssignCost n n M = 0 := by
  have hle : minAssignCost n n M ≤ 0 := by
    unfold minAssignCost minInjCost
    rw [if_pos (le_refl n), dif_pos (injFuns_nonempty (le_refl n))]
    have hmem : (id : Fin n → Fin n) ∈ injFuns n n := by
      simp only [injFuns, Finset.mem_filter, Finset.mem_univ, true_and]
      exact fun x y h => h
    have h1 : (injFuns n n).inf' (injFuns_nonempty (le_refl n))
        (fun f => ∑ i : Fin n, M i.val (f i).val)
        ≤ ∑ i : Fin n, M i.val (id i).val := Finset.inf'_le _ hmem
    have h2 : (∑ i : Fin n, M i.val (id i).val) = 0 :=
      Finset.sum_eq_zero (fun i _ => hdiag i.val i.isLt)
    linarith
  exact le_antisymm hle (minAssignCost_nonneg n n M hM)

/-! Gene-token construction and the LCS seed. -/

/-- Gene-token construction, bigscape.py lines 616-635: one token per gene, the
concatenation of that gene's domain identifiers with the leading two characters
(the `PF` of the pfam id) dropped; the domain order is reversed within a gene whose
orientation is not `+1`. The genes are walked by zipping the per-gene domain counts
with the per-gene orientations, consuming the domain list as the running `start`
offset does in the source. -/
def geneTokens : List PyStr → List (ℕ × ℤ) → List PyStr
  | _, [] => []
  | rest, (dc, o) :: gs =>
      (if o = 1 then (((rest.take dc).map (fun d => d.drop 2)).flatten)
       else ((((rest.take dc).reverse).map (fun d => d.drop 2)).flatten))
        :: geneTokens (rest.drop dc) gs

theorem geneTokens_length (rest : List PyStr) (gs : List (ℕ × ℤ)) :
    (geneTokens rest gs).length = gs.length := by
  induction gs generalizing rest with
  | nil => rfl
  | cons g gs ih =>
    rcases g with ⟨dc, o⟩
    simp only [geneTokens, List.length_cons, ih]

/-- Length of the longest common prefix of two token lists. -/
def commonLen : List PyStr → List PyStr → ℕ
  | x :: xs, y :: ys => if x = y then commonLen xs ys + 1 else 0
  | _, _ => 0

theorem commonLen_le_left (xs ys : List PyStr) : commonLen xs ys ≤ xs.length := by
  induction xs generalizing ys with
  | nil => simp [commonLen]
  | cons x xs ih =>
    cases ys with
    | nil => simp [commonLen]
    | cons y ys =>
      simp only [commonLen]
      split
      · simpa using ih ys
      · simp

theorem commonLen_le_right (xs ys : List PyStr) : commonLen xs ys ≤ ys.length := by
  induction xs generalizing ys with
  | nil => simp [commonLen]
  | cons x xs ih =>
    cases ys with
    | nil => simp [commonLen]
    | cons y ys =>
      simp only [commonLen]
      split
      · simpa using ih ys
      · simp

theorem commonLen_self (xs : List PyStr) : commonLen xs xs = xs.length := by
  induction xs with
  | nil => rfl
  | cons x xs ih => simp [commonLen, ih]

/-- Length of the matching block starting at positions `i` of `A` and `j` of `B`. -/
def matchLenAt (A B : List PyStr) (i j : ℕ) : ℕ := commonLen (A.drop i) (B.drop j)

/-- Keep the candidate matching block if it is strictly longer than the current best
(mirrors difflib preferring the earliest maximal block: earlier candidates win ties). -/
def pickBetter (best c : ℕ × ℕ × ℕ) : ℕ × ℕ × ℕ :=
  if best.2.2 < c.2.2 then c else best

/-- Model of difflib `SequenceMatcher(None, A, B).find_longest_match(0, lenA, 0, lenB)`
(bigscape.py lines 639-648), without the autojunk heuristic (inactive for sequences
shorter than 200 elements): among all matching blocks `(i, j, k)` with
`A[i:i+k] = B[j:j+k]` and `k` maximal, return the one with smallest `i`, then
smallest `j`. -/
def find_longest_match (A B : List PyStr) : ℕ × ℕ × ℕ :=
  ((List.range (A.length + 1)).flatMap (fun i =>
      (List.range (B.length + 1)).map (fun j => (i, j, matchLenAt A B i j)))).foldl
    pickBetter (0, 0, 0)

theorem foldl_pickBetter_prop (P : ℕ × ℕ × ℕ → Prop) (l : List (ℕ × ℕ × ℕ)) :
    ∀ init : ℕ × ℕ × ℕ, P init → (∀ c ∈ l, P c) → P (l.foldl pickBetter init) := by
  induction l with
  | nil =>
    intro init hinit _
    exact hinit
  | cons c cs ih =>
    intro init hinit hl
    simp only [List.foldl_cons]
    apply ih
    · unfold pickBetter
      split
      · exact hl c (by simp)
      · exact hinit
    · intro d hd
      exact hl d (by simp [hd])

theorem foldl_pickBetter_init_le (l : List (ℕ × ℕ × ℕ)) :
    ∀ init : ℕ × ℕ × ℕ, init.2.2 ≤ (l.foldl pickBetter init).2.2 := by
  induction l with
  | nil =>
    intro init
    exact le_refl _
  | cons c cs ih =>
    intro init
    simp only [List.foldl_cons]
    refine le_trans ?_ (ih (pickBetter init c))
    unfold pickBetter
    split
    · omega
    · exact le_refl _

theorem foldl_pickBetter_mem_le (l : List (ℕ × ℕ × ℕ)) :
    ∀ (init c : ℕ × ℕ × ℕ), c ∈ l → c.2.2 ≤ (l.foldl pickBetter init).2.2 := by
  induction l with
  | nil =>
    intro init c hc
    cases hc
  | cons d ds ih =>
    intro init c hc
    simp only [List.foldl_cons]
    rcases List.mem_cons.mp hc with h | h
    · subst h
      refine le_trans ?_ (foldl_pickBetter_init_le ds (pickBetter init c))
      unfold pickBetter
      split
      · exact le_refl _
      · omega
    · exact ih (pickBetter init d) c h

theorem find_longest_match_bounds (A B : List PyStr) :
    (find_longest_match A B).1 + (find_longest_match A B).2.2 ≤ A.length ∧
    (find_longest_match A B).2.1 + (find_longest_match A B).2.2 ≤ B.length := by
  unfold find_longest_match
  apply foldl_pickBetter_prop
    (fun c => c.1 + c.2.2 ≤ A.length ∧ c.2.1 + c.2.2 ≤ B.length)
  · simp
  · intro c hc
    simp only [List.mem_flatMap, List.mem_map, List.mem_range] at hc
    obtain ⟨i, hi, j, hj, rfl⟩ := hc
    constructor
    · have h1 : matchLenAt A B i j ≤ (A.drop i).length := commonLen_le_left _ _
      simp only [List.length_drop] at h1
      simp only []
      omega
    · have h2 : matchLenAt A B i j ≤ (B.drop j).length := commonLen_le_right _ _
      simp only [List.length_drop] at h2
      simp only []
      omega

theorem find_longest_match_size_le (A B : List PyStr) :
    (find_longest_match A B).2.2 ≤ A.length ∧ (find_longest_match A B).2.2 ≤ B.length := by
  have h := find_longest_match_bounds A B
  omega

/-- On two identical token lists the seed is the full-length match at the origin. -/
theorem find_longest_match_self (A : List PyStr) :
    find_longest_match A A = (0, 0, A.length) := by
  have hmem : ((0 : ℕ), (0 : ℕ), matchLenAt A A 0 0) ∈
      ((List.range (A.length + 1)).flatMap (fun i =>
        (List.range (A.length + 1)).map (fun j => (i, j, matchLenAt A A i j)))) := by
    simp only [List.mem_flatMap, List.mem_map, List.mem_range]
    exact ⟨0, by omega, 0, by omega, rfl⟩
  have hself : matchLenAt A A 0 0 = A.length := by
    simp [matchLenAt, commonLen_self]
  have hge : A.length ≤ (find_longest_match A A).2.2 := by
    unfold find_longest_match
    have hmle := foldl_pickBetter_mem_le
      ((List.range (A.length + 1)).flatMap (fun i =>
        (List.range (A.length + 1)).map (fun j => (i, j, matchLenAt A A i j))))
      (0, 0, 0) (0, 0, matchLenAt A A 0 0) hmem
    simpa [hself] using hmle
  have hb := find_longest_match_bounds A A
  have h1 : (find_longest_match A A).1 = 0 := by omega
  have h2 : (find_longest_match A A).2.1 = 0 := by omega
  have h3 : (find_longest_match A A).2.2 = A.length := by omega
  have hsplit : find_longest_match A A
      = ((find_longest_match A A).1, (find_longest_match A A).2.1,
        (find_longest_match A A).2.2) := rfl
  rw [hsplit, h1, h2, h3]

/-! Expansion scoring. -/

/-- Worker loop of `score_expansion` (bigscape.py lines 466-524), with the running
`score`, the best score `maxScore` seen so far, the number `posx` of tokens of the
driving string consumed, and the recorded expansion length `a`. A token found at
offset `k` past the reference pointer scores `match + k*gap = 5 - 2k` and advances
the pointer one past the match; an absent token scores `mismatch = -3`. `maxScore`
and `a` are updated whenever the post-match score reaches the current maximum. -/
def score_expansion_go : List PyStr → List PyStr → ℤ → ℤ → ℕ → ℕ → ℤ × ℕ
  | [], _, _, maxScore, _, a => (maxScore, a)
  | g :: gs, ys, score, maxScore, posx, a =>
    match ys.findIdx? (fun y => y == g) with
    | none => score_expansion_go gs ys (score + (-3)) maxScore (posx + 1) a
    | some k =>
        let scoreNew := score + 5 + (k : ℤ) * (-2)
        if maxScore ≤ scoreNew then
          score_expansion_go gs (ys.drop (k + 1)) scoreNew scoreNew (posx + 1) (posx + 1)
        else
          score_expansion_go gs (ys.drop (k + 1)) scoreNew maxScore (posx + 1) a

/-- Model of `score_expansion(x_string_, y_string_, downstream)`: when expanding
upstream both strings are reversed first (bigscape.py lines 484-488). -/
def score_expansion (x y : List PyStr) (downstream : Bool) : ℤ × ℕ :=
  if downstream then score_expansion_go x y 0 0 0 0
  else score_expansion_go x.reverse y.reverse 0 0 0 0

theorem score_expansion_go_a_le (x : List PyStr) :
    ∀ (ys : List PyStr) (s m : ℤ) (p a : ℕ), a ≤ p →
      (score_expansion_go x ys s m p a).2 ≤ p + x.length := by
  induction x with
  | nil =>
    intro ys s m p a ha
    simpa [score_expansion_go] using ha
  | cons g gs ih =>
    intro ys s m p a ha
    cases hidx : ys.findIdx? (fun y => y == g) with
    | none =>
      simp only [score_expansion_go, hidx]
      have hrec := ih ys (s + (-3)) m (p + 1) a (by omega)
      simp only [List.length_cons]
      omega
    | some k =>
      simp only [score_expansion_go, hidx]
      split
      · have hrec := ih (ys.drop (k + 1)) (s + 5 + (k : ℤ) * (-2)) (s + 5 + (k : ℤ) * (-2))
          (p + 1) (p + 1) (le_refl _)
        simp only [List.length_cons]
        omega
      · have hrec := ih (ys.drop (k + 1)) (s + 5 + (k : ℤ) * (-2)) m (p + 1) a (by omega)
        simp only [List.length_cons]
        omega

/-- The recorded expansion length never exceeds the length of the driving string. -/
theorem score_expansion_a_le (x y : List PyStr) (downstream : Bool) :
    (score_expansion x y downstream).2 ≤ x.length := by
  unfold score_expansion
  split
  · simpa using score_expansion_go_a_le x y 0 0 0 0 (le_refl 0)
  · simpa using score_expansion_go_a_le x.reverse y.reverse 0 0 0 0 (le_refl 0)

/-- The running-score trace of the expansion walk: the score after each consumed
token of the driving string, with the reference pointer advancing one past each
match. Written from the specification's description of the walk. -/
def expansionScores : List PyStr → List PyStr → ℤ → List ℤ
  | [], _, _ => []
  | g :: gs, ys, score =>
    match ys.findIdx? (fun y => y == g) with
    | none => (score - 3) :: expansionScores gs ys (score - 3)
    | some k => (score + 5 - 2 * k) :: expansionScores gs (ys.drop (k + 1)) (score + 5 - 2 * k)

/-- The number of tokens consumed at the last point where the running score equalled
or exceeded the running maximum, walking a score trace. -/
def lastRecordIdx : List ℤ → ℤ → ℕ → ℕ → ℕ
  | [], _, _, last => last
  | v :: vs, runMax, consumed, last =>
      if runMax ≤ v then lastRecordIdx vs v (consumed + 1) (consumed + 1)
      else lastRecordIdx vs runMax (consumed + 1) last

/-- Specification-level reformulation of `score_expansion` (spec section 4.2): walk
the driving string against the reference building the running-score trace, return
the running maximum of the score (at least 0) together with the number of driving
tokens consumed at the last point where the score equalled or exceeded the running
maximum. -/
def score_expansion_spec (x y : List PyStr) (downstream : Bool) : ℤ × ℕ :=
  let xw := if downstream then x else x.reverse
  let yw := if downstream then y else y.reverse
  let t := expansionScores xw yw 0
  (t.foldl max 0, lastRecordIdx t 0 0 0)

theorem score_expansion_go_eq_spec (x : List PyStr) :
    ∀ (ys : List PyStr) (s m : ℤ) (p a : ℕ), s ≤ m → 0 ≤ m →
      score_expansion_go x ys s m p a =
        ((expansionScores x ys s).foldl max m, lastRecordIdx (expansionScores x ys s) m p a) := by
  induction x with
  | nil =>
    intro ys s m p a hsm h0
    simp [score_expansion_go, expansionScores, lastRecordIdx]
  | cons g gs ih =>
    intro ys s m p a hsm h0
    cases hidx : ys.findIdx? (fun y => y == g) with
    | none =>
      have hlt : ¬ m ≤ s - 3 := by omega
      have harith : s + (-3) = s - 3 := by ring
      simp only [score_expansion_go, expansionScores, hidx]
      rw [ih ys (s + (-3)) m (p + 1) a (by omega) h0, harith]
      simp only [List.foldl_cons, lastRecordIdx, if_neg hlt]
      rw [max_eq_left (by omega)]
    | some k =>
      have harith : s + 5 + (k : ℤ) * (-2) = s + 5 - 2 * (k : ℤ) := by ring
      simp only [score_expansion_go, expansionScores, hidx]
      by_cases hge : m ≤ s + 5 + (k : ℤ) * (-2)
      · rw [if_pos hge]
        rw [ih (ys.drop (k + 1)) (s + 5 + (k : ℤ) * (-2)) (s + 5 + (k : ℤ) * (-2))
          (p + 1) (p + 1) (le_refl _) (by omega)]
        rw [harith]
        simp only [List.foldl_cons, lastRecordIdx, if_pos (show m ≤ s + 5 - 2 * (k : ℤ) by omega)]
        rw [max_eq_right (by omega)]
      · rw [if_neg hge]
        rw [ih (ys.drop (k + 1)) (s + 5 + (k : ℤ) * (-2)) m (p + 1) a (by omega) h0]
        rw [harith]
        have hlt : ¬ m ≤ s + 5 - 2 * (k : ℤ) := by omega
        simp only [List.foldl_cons, lastRecordIdx, if_neg hlt]
        rw [max_eq_left (by omega)]

/-- Claim C6: `score_expansion` agrees with its specification: it walks the driving
string token by token (reversing both lists first when walking upstream), adds
`5 - 2k` for a token found `k` positions past the current pointer (advancing the
pointer one past the match), adds `-3` for a token not found, and returns the
running maximum of the score (at least 0) together with the number of driving
tokens consumed at the last point where the score equalled or exceeded the running
maximum. -/
theorem score_expansion_eq_spec (x y : List PyStr) (downstream : Bool) :
    score_expansion x y downstream = score_expansion_spec x y downstream := by
  unfold score_expansion score_expansion_spec
  cases downstream with
  | true =>
    simp only [if_pos]
    exact score_expansion_go_eq_spec x y 0 0 0 0 (le_refl 0) (le_refl 0)
  | false =>
    simp only [Bool.false_eq_true, if_false]
    exact score_expansion_go_eq_spec x.reverse y.reverse 0 0 0 0 (le_refl 0) (le_refl 0)

/-! The BGC class of a product annotation (functions.py, `sort_bgc`). -/

/-- The PKS-other product annotations (functions.py line 473). -/
def pksOtherProducts : List PyStr :=
  [pys "transatpks", pys "t2pks", pys "t3pks", pys "otherks", pys "hglks"]

/-- The RiPP product annotations (functions.py lines 479 and 497). -/
def rippProducts : List PyStr :=
  [pys "lantipeptide", pys "thiopeptide", pys "bacteriocin", pys "linaridin",
   pys "cyanobactin", pys "glycocin", pys "LAP", pys "lassopeptide",
   pys "sactipeptide", pys "bottromycin", pys "head_to_tail", pys "microcin",
   pys "microviridin", pys "proteusin"]

/-- The saccharide product annotations (functions.py line 482). -/
def saccharideProducts : List PyStr :=
  [pys "amglyccycl", pys "oligosaccharide", pys "cf_saccharide"]

/-- The PKS/NRPS subtypes recognised inside hybrid products (functions.py line 492). -/
def hybridPksNrpsSubtypes : List PyStr :=
  [pys "t1pks", pys "transatpks", pys "t2pks", pys "t3pks", pys "otherks",
   pys "hglks", pys "nrps"]

/-- The product annotations explicitly listed as Others (functions.py line 502). -/
def otherProducts : List PyStr :=
  [pys "arylpolyene", pys "aminocoumarin", pys "ectoine", pys "butyrolactone",
   pys "nucleoside", pys "melanin", pys "phosphoglycolipid", pys "phenazine",
   pys "phosphonate", pys "other", pys "cf_putative", pys "resorcinol",
   pys "indole", pys "ladderane", pys "PUFA", pys "furan", pys "hserlactone",
   pys "fused", pys "cf_fatty_acid", pys "siderophore", pys "blactam"]

/-- Python `str.strip()`: remove leading and trailing whitespace. -/
def pyStrip (s : PyStr) : PyStr :=
  ((s.dropWhile Char.isWhitespace).reverse.dropWhile Char.isWhitespace).reverse

/-- Model of `sort_bgc(product)` (functions.py lines 466-506): classify a product
annotation into one of the eight BGC class names. Hybrid (hyphenated) products are
split on `-`, their parts stripped; all-PKS/NRPS hybrids map to `PKS-NRP_Hybrids`
when `nrps` is among the parts and to `PKSother` otherwise; all-RiPP hybrids map to
`RiPPs`; anything unrecognised maps to `Others`. -/
def sort_bgc (product : PyStr) : PyStr :=
  if product = pys "t1pks" then pys "PKSI"
  else if product ∈ pksOtherProducts then pys "PKSother"
  else if product = pys "nrps" then pys "NRPS"
  else if product ∈ rippProducts then pys "RiPPs"
  else if product ∈ saccharideProducts then pys "Saccharides"
  else if product = pys "terpene" then pys "Terpene"
  else if 1 < (product.splitOn '-').length then
    if ∀ s ∈ (product.splitOn '-').map pyStrip, s ∈ hybridPksNrpsSubtypes then
      (if pys "nrps" ∈ (product.splitOn '-').map pyStrip then pys "PKS-NRP_Hybrids"
       else pys "PKSother")
    else if ∀ s ∈ (product.splitOn '-').map pyStrip, s ∈ rippProducts then pys "RiPPs"
    else pys "Others"
  else if product ∈ otherProducts then pys "Others"
  else pys "Others"

/-- All product annotations recognised by a non-hybrid branch of `sort_bgc`. -/
def recognisedProducts : List PyStr :=
  [pys "t1pks"] ++ pksOtherProducts ++ [pys "nrps"] ++ rippProducts
    ++ saccharideProducts ++ [pys "terpene"] ++ otherProducts

/-- Claim C10: `sort_bgc` is total, always returning one of the eight class names;
an unrecognised non-hyphenated product maps to `Others`; and a hyphenated product
whose stripped parts all lie in the PKS/NRPS subtype set maps to `PKS-NRP_Hybrids`
exactly when `nrps` is among the parts. -/
theorem sort_bgc_classes (product : PyStr) :
    sort_bgc product ∈ [pys "PKSI", pys "PKSother", pys "NRPS", pys "RiPPs",
      pys "Saccharides", pys "Terpene", pys "PKS-NRP_Hybrids", pys "Others"]
    ∧ ((product.splitOn '-').length ≤ 1 → product ∉ recognisedProducts →
        sort_bgc product = pys "Others")
    ∧ (1 < (product.splitOn '-').length →
        (∀ s ∈ (product.splitOn '-').map pyStrip, s ∈ hybridPksNrpsSubtypes) →
        (sort_bgc product = pys "PKS-NRP_Hybrids" ↔
          pys "nrps" ∈ (product.splitOn '-').map pyStrip)) := by
  have hmem1 : ∀ p ∈ pksOtherProducts, p ∈ recognisedProducts := by
    intro p hp
    simp only [recognisedProducts, List.mem_append]
    tauto
  have hmem2 : ∀ p ∈ rippProducts, p ∈ recognisedProducts := by
    intro p hp
    simp only [recognisedProducts, List.mem_append]
    tauto
  have hmem3 : ∀ p ∈ saccharideProducts, p ∈ recognisedProducts := by
    intro p hp
    simp only [recognisedProducts, List.mem_append]
    tauto
  refine ⟨?_, ?_, ?_⟩
  · unfold sort_bgc
    split_ifs <;> decide
  · intro hlen hmem
    unfold sort_bgc
    split_ifs with h1 h2 h3 h4 h5 h6 h7 h8 h9 h10 h11
    · exact absurd (h1 ▸ (by decide : pys "t1pks" ∈ recognisedProducts)) hmem
    · exact absurd (hmem1 product h2) hmem
    · exact absurd (h3 ▸ (by decide : pys "nrps" ∈ recognisedProducts)) hmem
    · exact absurd (hmem2 product h4) hmem
    · exact absurd (hmem3 product h5) hmem
    · exact absurd (h6 ▸ (by decide : pys "terpene" ∈ recognisedProducts)) hmem
    · omega
    · omega
    · omega
    · omega
    · rfl
    · rfl
  · intro hhyp hall
    have hnohyphen : ∀ p ∈ recognisedProducts, ¬ 1 < (p.splitOn '-').length := by decide
    unfold sort_bgc
    split_ifs with h1 h2 h3 h4 h5 h6 h7
    · exact absurd hhyp (h1 ▸ hnohyphen _ (by decide))
    · exact absurd hhyp (hnohyphen _ (hmem1 product h2))
    · exact absurd hhyp (h3 ▸ hnohyphen _ (by decide))
    · exact absurd hhyp (hnohyphen _ (hmem2 product h4))
    · exact absurd hhyp (hnohyphen _ (hmem3 product h5))
    · exact absurd hhyp (h6 ▸ hnohyphen _ (by decide))
    · exact iff_of_true (by trivial) h7
    · constructor
      · intro hcontr
        first
          | exact hcontr.elim
          | exact absurd hcontr (by decide)
      · intro hx
        exact absurd hx h7

/-- Witness for claim C10: the conjunction instantiated at concrete products. -/
theorem sort_bgc_classes_witness :
    sort_bgc (pys "t1pks-nrps") = pys "PKS-NRP_Hybrids"
      ∧ sort_bgc (pys "mystery_product") = pys "Others" := by
  constructor
  · exact ((sort_bgc_classes (pys "t1pks-nrps")).2.2 (by decide) (by decide)).mpr (by decide)
  · exact (sort_bgc_classes (pys "mystery_product")).2.1 (by decide) (by decide)

/-! The pair scorer `cluster_distance_lcs` (bigscape.py lines 527-1029). -/

/-- Per-cluster data consumed by `cluster_distance_lcs`: the ordered domain list
(`DomainList`), the per-gene domain counts (`DomainCountGene`), the 0-based gene
numbers of the core-biosynthetic genes (`corebiosynthetic_position`), the per-gene
orientations (`BGCGeneOrientation`, values `±1`), the `contig_edge` flag from
`bgc_info`, and the aligned sequence of the k-th instance (in cluster order) of each
domain family: `aligned d k` models `AlignedDomainSequences[BGCs[X][d][k]]`, using
that `BGCs[X][d]` lists the instance tags of family `d` in cluster order, so
`len(BGCs[X][d])` is the number of occurrences of `d` in the domain list. -/
structure ClusterData where
  domlist : List PyStr
  dcg : List ℕ
  corePos : List ℕ
  go : List ℤ
  contigEdge : Bool
  aligned : PyStr → ℕ → PyStr

/-- The `--mode` option: `global`, `lcs` or `auto` (bigscape.py line 693). -/
inductive RunMode where
  | global : RunMode
  | lcs : RunMode
  | auto : RunMode
deriving DecidableEq

/-- Class weights `(Jaccardw, DSSw, AIw, anchorboost)`. -/
structure ClassWeights where
  wJ : ℚ
  wDSS : ℚ
  wAI : ℚ
  boost : ℚ
deriving DecidableEq

/-- The `bgc_class_weight` table (bigscape.py lines 1741-1758), including the `mix`
entry added for non-classified runs. -/
def bgc_class_weight : List (PyStr × ClassWeights) :=
  [(pys "PKSI", ⟨22/100, 76/100, 2/100, 1⟩),
   (pys "PKSother", ⟨0, 32/100, 68/100, 4⟩),
   (pys "NRPS", ⟨0, 1, 0, 4⟩),
   (pys "RiPPs", ⟨28/100, 71/100, 1/100, 1⟩),
   (pys "Saccharides", ⟨0, 0, 1, 1⟩),
   (pys "Terpene", ⟨20/100, 75/100, 5/100, 2⟩),
   (pys "PKS-NRP_Hybrids", ⟨0, 78/100, 22/100, 1⟩),
   (pys "Others", ⟨1/100, 97/100, 2/100, 4⟩),
   (pys "mix", ⟨20/100, 75/100, 5/100, 2⟩)]

/-- The gene-token string of a cluster (`A_string`/`b_string`, lines 616-635). -/
def clusterTokens (c : ClusterData) : List PyStr :=
  geneTokens c.domlist (c.dcg.zip c.go)

/-- The slice state produced by the seed and updated by expansion: the working
orientation of B (`dcg_B`, `B_string`), the slice starts and lengths (Python ints,
modelled as `ℤ`), and whether the reverse orientation won. -/
structure SliceState where
  reverse : Bool
  dcgB : List ℕ
  Bstr : List PyStr
  startA : ℤ
  startB : ℤ
  lenA : ℤ
  lenB : ℤ
  seedLen : ℕ

/-- Seed choice (bigscape.py lines 639-678): compute the longest common match of the
token strings forward and against the reversed B; keep the reverse orientation only
when its match is strictly longer (`if s >= sr` keeps forward). -/
def chooseOrientation (Astr bstr : List PyStr) (dcg_b : List ℕ) : SliceState :=
  let fwdM := find_longest_match Astr bstr
  let revM := find_longest_match Astr bstr.reverse
  if revM.2.2 ≤ fwdM.2.2 then
    ⟨false, dcg_b, bstr, fwdM.1, fwdM.2.1, fwdM.2.2, fwdM.2.2, fwdM.2.2⟩
  else
    ⟨true, dcg_b.reverse, bstr.reverse, revM.1, revM.2.1, revM.2.2, revM.2.2, revM.2.2⟩

/-- Upstream (left) expansion (bigscape.py lines 703-738). When both sides have the
same upstream budget the higher-scoring driver wins (ties by longer A expansion);
otherwise the side with fewer upstream genes is fully consumed and the other side is
expanded against it. -/
def expandLeft (Astr : List PyStr) (st : SliceState) : SliceState :=
  if st.startA = st.startB then
    let scB := score_expansion (st.Bstr.take st.startB.toNat) (Astr.take st.startA.toNat) false
    let scA := score_expansion (Astr.take st.startA.toNat) (st.Bstr.take st.startB.toNat) false
    if scB.1 < scA.1 ∨ (scA.1 = scB.1 ∧ scB.2 < scA.2) then
      { st with lenA := st.lenA + scA.2,
                lenB := st.lenB + (st.Bstr.take st.startB.toNat).length,
                startA := st.startA - scA.2,
                startB := 0 }
    else
      { st with lenA := st.lenA + (Astr.take st.startA.toNat).length,
                lenB := st.lenB + scB.2,
                startA := 0,
                startB := st.startB - scB.2 }
  else if st.startA < st.startB then
    let scB := score_expansion (st.Bstr.take st.startB.toNat) (Astr.take st.startA.toNat) false
    { st with lenA := st.lenA + (Astr.take st.startA.toNat).length,
              lenB := st.lenB + scB.2,
              startA := 0,
              startB := st.startB - scB.2 }
  else
    let scA := score_expansion (Astr.take st.startA.toNat) (st.Bstr.take st.startB.toNat) false
    { st with lenA := st.lenA + scA.2,
              lenB := st.lenB + (st.Bstr.take st.startB.toNat).length,
              startA := st.startA - scA.2,
              startB := 0 }

/-- Downstream (right) expansion (bigscape.py lines 740-770). -/
def expandRight (Astr : List PyStr) (st : SliceState) (lenG_A lenG_B : ℕ) : SliceState :=
  let downstreamA : ℤ := lenG_A - st.startA - st.lenA
  let downstreamB : ℤ := lenG_B - st.startB - st.lenB
  let restA := Astr.drop (st.startA + st.lenA).toNat
  let restB := st.Bstr.drop (st.startB + st.lenB).toNat
  if downstreamA = downstreamB then
    let scB := score_expansion restB restA true
    let scA := score_expansion restA restB true
    if (scA.1 = scB.1 ∧ scB.2 < scA.2) ∨ scB.1 < scA.1 then
      { st with lenA := st.lenA + scA.2, lenB := st.lenB + restB.length }
    else
      { st with lenA := st.lenA + restA.length, lenB := st.lenB + scB.2 }
  else if downstreamA < downstreamB then
    let scB := score_expansion restB restA true
    { st with lenA := st.lenA + restA.length, lenB := st.lenB + scB.2 }
  else
    let scA := score_expansion restA restB true
    { st with lenA := st.lenA + scA.2, lenB := st.lenB + restB.length }

/-- The expansion step (bigscape.py lines 700-770): only attempted when the seed has
at least 3 genes. -/
def expandSlices (Astr : List PyStr) (st : SliceState) (lenG_A lenG_B : ℕ) : SliceState :=
  if 3 ≤ st.lenA then expandRight Astr (expandLeft Astr st) lenG_A lenG_B else st

/-- The slice data the scorer consumes: the final slice coordinates (`startB` already
remapped to the original orientation when the reverse seed won and the length gate
was reached), the domain-level ranges, the domain-family sets, and the per-family
instance-slice dictionaries (`A_domain_sequence_slice_bottom`/`_top` and the B
versions, total functions defaulting to 0 like the source's `defaultdict(int)`). -/
structure RangeInfo where
  reverse : Bool
  startA : ℤ
  startB : ℤ
  lenA : ℤ
  lenB : ℤ
  seedLen : ℕ
  gateAccepted : Bool
  domAstart : ℕ
  domAend : ℕ
  domBstart : ℕ
  domBend : ℕ
  setA : Finset PyStr
  setB : Finset PyStr
  Abot : PyStr → ℕ
  Atop : PyStr → ℕ
  Bbot : PyStr → ℕ
  Btop : PyStr → ℕ

/-- The reverse-orientation remap of the B slice start (bigscape.py lines 791-793):
when the reverse seed won, return to the original orientation before the
core-biosynthetic check; otherwise keep the start unchanged. -/
def remapStartB (st : SliceState) (lenG_B : ℕ) : ℤ :=
  if st.reverse then (lenG_B : ℤ) - st.startB - st.lenB else st.startB

/-- The core-biosynthetic hit test of the validity gate (bigscape.py lines 786-799):
some recorded core gene number lies within the closed interval
`[start, start + len]` (both comparisons in the source are inclusive). -/
def coreHit (corePos : List ℕ) (start len : ℤ) : Prop :=
  ∃ p ∈ corePos, start ≤ (p : ℤ) ∧ (p : ℤ) ≤ start + len

instance (corePos : List ℕ) (start len : ℤ) : Decidable (coreHit corePos start len) :=
  List.decidableBEx _ corePos

/-- The full-cluster fallback ranges and instance dictionaries (bigscape.py lines
591-605): both domain ranges cover the whole lists and the dictionaries select every
instance copy of every family present. -/
def fullRangeInfo (A B : ClusterData) (st : SliceState) (startB : ℤ) : RangeInfo :=
  ⟨st.reverse, st.startA, startB, st.lenA, st.lenB, st.seedLen, false,
    0, A.domlist.length, 0, B.domlist.length,
    A.domlist.toFinset, B.domlist.toFinset,
    fun _ => 0, fun d => if d ∈ A.domlist.toFinset then A.domlist.count d else 0,
    fun _ => 0, fun d => if d ∈ B.domlist.toFinset then B.domlist.count d else 0⟩

/-- The ranges rebuilt after an accepted overlap (bigscape.py lines 802-832): the
domain ranges cover exactly the gene slices, the sets are the slice sets, the bottom
dictionaries count the occurrences before the slice (the `+= 1` loop over the list
prefix, written in closed form), and the top dictionaries add the slice counts for
slice families while keeping their initial full-cluster value for the rest. -/
def acceptedRangeInfo (A B : ClusterData) (st : SliceState) (startB2 : ℤ) : RangeInfo :=
  let domAstart := (A.dcg.take st.startA.toNat).sum
  let lenSliceA := ((A.dcg.drop st.startA.toNat).take st.lenA.toNat).sum
  let sliceA := (A.domlist.drop domAstart).take lenSliceA
  let domBstart := (B.dcg.take startB2.toNat).sum
  let lenSliceB := ((B.dcg.drop startB2.toNat).take st.lenB.toNat).sum
  let sliceB := (B.domlist.drop domBstart).take lenSliceB
  let Abot : PyStr → ℕ := fun d => (A.domlist.take domAstart).count d
  let Bbot : PyStr → ℕ := fun d => (B.domlist.take domBstart).count d
  ⟨st.reverse, st.startA, startB2, st.lenA, st.lenB, st.seedLen, true,
    domAstart, domAstart + lenSliceA, domBstart, domBstart + lenSliceB,
    sliceA.toFinset, sliceB.toFinset,
    Abot,
    fun d => if d ∈ sliceA.toFinset then Abot d + sliceA.count d
      else (if d ∈ A.domlist.toFinset then A.domlist.count d else 0),
    Bbot,
    fun d => if d ∈ sliceB.toFinset then Bbot d + sliceB.count d
      else (if d ∈ B.domlist.toFinset then B.domlist.count d else 0)⟩

/-- The validity gate applied to the expanded slices (bigscape.py lines 779-838):
the pair is an accepted overlap iff `min(lenA, lenB) >= 5` and both closed-range
core-biosynthetic checks succeed; the B start is remapped (when reversed) only once
the length test has passed. On rejection everything falls back to the full-cluster
ranges. -/
def gateRanges (A B : ClusterData) (st : SliceState) : RangeInfo :=
  if 5 ≤ min st.lenA st.lenB then
    (let startB2 := remapStartB st B.dcg.length
     if coreHit A.corePos st.startA st.lenA ∧ coreHit B.corePos startB2 st.lenB
     then acceptedRangeInfo A B st startB2
     else fullRangeInfo A B st startB2)
  else fullRangeInfo A B st st.startB

/-- The slice phase of `cluster_distance_lcs` (bigscape.py lines 591-838): always
compute the seed (lines 607-678); in `lcs` mode, or in `auto` mode with a contig
edge, expand the slices and apply the validity gate; otherwise keep the full-cluster
ranges. -/
def computeRanges (mode : RunMode) (A B : ClusterData) : RangeInfo :=
  let Astr := clusterTokens A
  let bstr := clusterTokens B
  let sd := chooseOrientation Astr bstr B.dcg
  if mode = RunMode.lcs ∨ (mode = RunMode.auto ∧ (A.contigEdge ∨ B.contigEdge)) then
    gateRanges A B (expandSlices Astr sd A.dcg.length B.dcg.length)
  else fullRangeInfo A B sd sd.startB

/-- The number of instance copies of a family selected by the slice dictionaries
(`top[d] - bottom[d]`). -/
def numCopies (top bot : PyStr → ℕ) (d : PyStr) : ℕ := top d - bot d

/-- The per-shared-family sequence-distance contribution (bigscape.py lines 878-958):
`|num_copies_a - num_copies_b| + accumulated_distance`, where the accumulated
distance is the minimum assignment cost over the matrix of aligned-sequence
distances of the selected instance copies. -/
def sharedSeqDist (A B : ClusterData) (ri : RangeInfo) (d : PyStr) : ℚ :=
  let ca := numCopies ri.Atop ri.Abot d
  let cb := numCopies ri.Btop ri.Bbot d
  let M : ℕ → ℕ → ℚ := fun i j =>
    seqDist (A.aligned d (i + ri.Abot d)) (B.aligned d (j + ri.Bbot d))
  |(ca : ℚ) - (cb : ℚ)| + minAssignCost ca cb M

/-- The DSS accumulators (bigscape.py lines 850-965): `domain_difference` (non-anchor
and anchor) and the normalisers `S`, `S_anchor`. For an unshared family the source
reads `A_domain_sequence_slice_top/bottom[d]`; both are `defaultdict(int)`, so the
`except KeyError` fallback to the B dictionaries (line 865) is dead code and a family
present only in B contributes its A-side value 0. `S`/`S_anchor` are initialised to
the unshared totals (lines 873-874); each shared family then adds
`max(num_copies_a, num_copies_b)`. -/
def dssSums (anchors : List PyStr) (A B : ClusterData) (ri : RangeInfo) :
    ℚ × ℚ × ℕ × ℕ :=
  let notIntersect := (ri.setA \ ri.setB) ∪ (ri.setB \ ri.setA)
  let inter := ri.setA ∩ ri.setB
  let unsharedNa : ℕ := ∑ d ∈ notIntersect,
    (if isAnchor anchors d then 0 else numCopies ri.Atop ri.Abot d)
  let unsharedA : ℕ := ∑ d ∈ notIntersect,
    (if isAnchor anchors d then numCopies ri.Atop ri.Abot d else 0)
  let ddNa : ℚ := unsharedNa + ∑ d ∈ inter,
    (if isAnchor anchors d then 0 else sharedSeqDist A B ri d)
  let ddA : ℚ := unsharedA + ∑ d ∈ inter,
    (if isAnchor anchors d then sharedSeqDist A B ri d else 0)
  let S : ℕ := unsharedNa + ∑ d ∈ inter,
    (if isAnchor anchors d then 0 else max (numCopies ri.Atop ri.Abot d) (numCopies ri.Btop ri.Bbot d))
  let Sa : ℕ := unsharedA + ∑ d ∈ inter,
    (if isAnchor anchors d then max (numCopies ri.Atop ri.Abot d) (numCopies ri.Btop ri.Bbot d) else 0)
  (ddNa, ddA, S, Sa)

/-- The DSS combination (bigscape.py lines 967-994): returns
`(DSS, DSS_non_anchor, DSS_anchor)`, where `DSS` has already been turned into a
similarity by the final `DSS = 1-DSS`. When both anchor and non-anchor domains are
present the anchor subcomponent is boosted by `anchorboost` and renormalised. -/
def combineDSS (boost : ℚ) (ddNa ddA : ℚ) (S Sa : ℕ) : ℚ × ℚ × ℚ :=
  if Sa ≠ 0 ∧ S ≠ 0 then
    let dssNa := ddNa / S
    let dssA := ddA / Sa
    let naPrct : ℚ := S / (S + Sa : ℕ)
    let aPrct : ℚ := Sa / (S + Sa : ℕ)
    let naW := naPrct / (aPrct * boost + naPrct)
    let aW := aPrct * boost / (aPrct * boost + naPrct)
    (1 - (naW * dssNa + aW * dssA), dssNa, dssA)
  else if Sa = 0 then
    (1 - ddNa / S, ddNa / S, 0)
  else
    (1 - ddA / Sa, 0, ddA / Sa)

/-- Lexicographic comparison of Python strings (used by `sorted` on a string pair). -/
def lexLe : PyStr → PyStr → Bool
  | [], _ => true
  | _ :: _, [] => false
  | x :: xs, y :: ys => if x = y then lexLe xs ys else decide (x < y)

/-- `tuple(sorted([x, y]))` (bigscape.py lines 1005, 1009). -/
def sortPair (x y : PyStr) : PyStr × PyStr :=
  if lexLe x y then (x, y) else (y, x)

/-- The unordered adjacent-domain pairs of a domain-list slice. -/
def adjPairs (l : List PyStr) : Finset (PyStr × PyStr) :=
  ((l.zip l.tail).map (fun p => sortPair p.1 p.2)).toFinset

/-- The adjacency index (bigscape.py lines 997-1012): Tanimoto similarity of the
adjacent-domain-pair sets of the two slices, 0 when either slice has fewer than two
domains. -/
def adjacencyIndex (sliceA sliceB : List PyStr) : ℚ :=
  if sliceA.length < 2 ∨ sliceB.length < 2 then 0
  else ((adjPairs sliceA ∩ adjPairs sliceB).card : ℚ) /
    ((adjPairs sliceA ∪ adjPairs sliceB).card : ℚ)

/-- The Jaccard index (bigscape.py line 841). -/
def jaccardIndex (setA setB : Finset PyStr) : ℚ :=
  ((setA ∩ setB).card : ℚ) / ((setA ∪ setB).card : ℚ)

/-- The ten return values of `cluster_distance_lcs` (bigscape.py line 1029). -/
structure PairResult where
  distance : ℚ
  jaccard : ℚ
  dss : ℚ
  ai : ℚ
  dssNonAnchor : ℚ
  dssAnchor : ℚ
  S : ℕ
  Sanchor : ℕ
  lcsStartA : ℤ
  lcsStartB : ℤ
deriving DecidableEq

/-- The return values of `cluster_distance_lcs` together with internal observables:
the pre-clamp distance, whether the negative-distance diagnostic fires (line 1018),
the chosen orientation, the gate outcome and the final slice data. -/
structure PairResultFull where
  res : PairResult
  rawDistance : ℚ
  negLogged : Bool
  reverse : Bool
  gateAccepted : Bool
  sliceStartA : ℤ
  sliceStartB : ℤ
  sliceLenA : ℤ
  sliceLenB : ℤ
  domAstart : ℕ
  domAend : ℕ
  domBstart : ℕ
  domBend : ℕ

/-- The full pair scorer `cluster_distance_lcs(A, B, ...)` (bigscape.py lines
527-1029). The totally-unrelated shortcut (lines 569-588) fires when the full
domain-family sets are disjoint and reports the summed instance counts of both
clusters split into anchor and non-anchor. Otherwise the slice phase runs, followed
by Jaccard, DSS (Hungarian-matched aligned-sequence identities) and the adjacency
index, the weighted distance, the clamp at 0 (with a diagnostic only below `-1e-6`,
lines 1017-1024) and the flip of `sliceStartB` to a non-positive value when the
reverse orientation was used (lines 1026-1027). -/
def cluster_distance_lcs_full (mode : RunMode) (anchors : List PyStr)
    (w : ClassWeights) (A B : ClusterData) : PairResultFull :=
  let setAfull := A.domlist.toFinset
  let setBfull := B.domlist.toFinset
  if (setAfull ∩ setBfull).card = 0 then
    let S : ℕ := (∑ d ∈ setAfull, if isAnchor anchors d then 0 else A.domlist.count d)
      + ∑ d ∈ setBfull, (if isAnchor anchors d then 0 else B.domlist.count d)
    let Sa : ℕ := (∑ d ∈ setAfull, if isAnchor anchors d then A.domlist.count d else 0)
      + ∑ d ∈ setBfull, (if isAnchor anchors d then B.domlist.count d else 0)
    ⟨⟨1, 0, 0, 0, 1, 1, S, Sa, 0, 0⟩, 1, false, false, false,
      0, 0, 0, 0, 0, A.domlist.length, 0, B.domlist.length⟩
  else
    let ri := computeRanges mode A B
    let jaccard := jaccardIndex ri.setA ri.setB
    let sums := dssSums anchors A B ri
    let dssTriple := combineDSS w.boost sums.1 sums.2.1 sums.2.2.1 sums.2.2.2
    let sliceListA := (A.domlist.drop ri.domAstart).take (ri.domAend - ri.domAstart)
    let sliceListB := (B.domlist.drop ri.domBstart).take (ri.domBend - ri.domBstart)
    let ai := adjacencyIndex sliceListA sliceListB
    let rawDistance := 1 - w.wJ * jaccard - w.wDSS * dssTriple.1 - w.wAI * ai
    let distance := if rawDistance < 0 then 0 else rawDistance
    let negLogged := decide (rawDistance < -(1/1000000 : ℚ))
    let finalStartB := if ri.reverse then -ri.startB else ri.startB
    ⟨⟨distance, jaccard, dssTriple.1, ai, dssTriple.2.1, dssTriple.2.2,
        sums.2.2.1, sums.2.2.2, ri.startA, finalStartB⟩,
      rawDistance, negLogged, ri.reverse, ri.gateAccepted,
      ri.startA, ri.startB, ri.lenA, ri.lenB,
      ri.domAstart, ri.domAend, ri.domBstart, ri.domBend⟩

/-- The ten-value result of `cluster_distance_lcs` (bigscape.py line 1029). -/
def cluster_distance_lcs (mode : RunMode) (anchors : List PyStr)
    (w : ClassWeights) (A B : ClusterData) : PairResult :=
  (cluster_distance_lcs_full mode anchors w A B).res

/-- One row of the distance matrix as built by `generate_dist_matrix` (bigscape.py
lines 405-463), together with whether the empty-domain-list warning was printed.
The sentinel row for a pair with an empty domain list (lines 426-440) has 12 entries
(it lacks the squared-similarity column of the 13-entry regular row). -/
def generate_dist_matrix (cluster1Idx cluster2Idx : ℕ) (mode : RunMode)
    (anchors : List PyStr) (w : ClassWeights) (A B : ClusterData) : List ℚ × Bool :=
  if A.domlist.length = 0 ∨ B.domlist.length = 0 then
    ([cluster1Idx, cluster2Idx, 1, 0, 0, 0, 0, 0, 1, 1, 0, 0], true)
  else
    let r := cluster_distance_lcs mode anchors w A B
    ([cluster1Idx, cluster2Idx, r.distance, (1 - r.distance) ^ 2, r.jaccard, r.dss,
      r.ai, r.dssNonAnchor, r.dssAnchor, r.S, r.Sanchor, r.lcsStartA, r.lcsStartB],
      false)

/-! The family/clan caller control flow (`clusterJsonBatch`). -/

/-- What the per-cutoff tail of `clusterJsonBatch` emits (bigscape.py lines
1262-1401): the clan labels in effect, whether the `_clustering_c{cutoff}.tsv` file
is written (line 1366) and whether the `_clans_` file is written (line 1392). -/
structure CutoffEmission where
  clanLabels : List ℤ
  clusteringFileWritten : Bool
  clansFileWritten : Bool
deriving DecidableEq

/-- Model of the per-cutoff control flow of `clusterJsonBatch` (bigscape.py lines
1262-1401). When clan clustering is active and the cutoff equals the clan
classification cutoff, a single GCF makes the code set `clanLabels = [1]` and
`continue` (lines 1279-1283), which skips the clustering-file write at line 1366 and
the clans-file write at line 1392 for that cutoff; otherwise the clan labels come
from the affinity-propagation call (external `pysapc`, here a parameter) and the
clustering file is always written, the clans file iff the label list is non-empty
(line 1392). -/
def clusterJsonCutoffEmission (clusterClans : Bool) (cutoffEqualsClanCutoff : Bool)
    (numFamilies : ℕ) (apClanLabels : List ℤ) : CutoffEmission :=
  if clusterClans ∧ cutoffEqualsClanCutoff then
    if numFamilies = 1 then ⟨[1], false, false⟩
    else ⟨apClanLabels, true, decide (0 < apClanLabels.length)⟩
  else ⟨[], true, false⟩

/-- Claim C4 (code bug): with clan mode on, the cutoff equal to the clan
classification cutoff, and affinity propagation having produced exactly one family,
the `continue` at bigscape.py line 1283 skips the rest of the cutoff iteration, so
neither the clustering file (the trivial one-family partition) nor a clans file is
emitted for that cutoff — the assignment `clanLabels = [1]` just before it is dead. -/
theorem clusterJson_single_family_skips_output (apClanLabels : List ℤ) :
    clusterJsonCutoffEmission true true 1 apClanLabels
      = ⟨[1], false, false⟩ := rfl

/-- Claim C8: when either cluster has an empty domain list, `generate_dist_matrix`
returns (without raising) the sentinel row with distance 1, Jaccard 0, DSS 0, AI 0,
raw DSS non-anchor 0, raw DSS anchor 0, `S = 1`, `S_anchor = 1` and zero slice
starts, and the warning for the pair fires. -/
theorem generate_dist_matrix_empty_sentinel (c1 c2 : ℕ) (mode : RunMode)
    (anchors : List PyStr) (w : ClassWeights) (A B : ClusterData)
    (h : A.domlist = [] ∨ B.domlist = []) :
    generate_dist_matrix c1 c2 mode anchors w A B
      = ([(c1 : ℚ), (c2 : ℚ), 1, 0, 0, 0, 0, 0, 1, 1, 0, 0], true) := by
  unfold generate_dist_matrix
  rcases h with h | h <;> simp [h]

/-- Witness for claim C8 at a concrete empty/non-empty pair. -/
theorem generate_dist_matrix_empty_sentinel_witness :
    generate_dist_matrix 0 1 RunMode.global [] ⟨1/5, 3/4, 1/20, 2⟩
      ⟨[], [], [], [], false, fun _ _ => []⟩
      ⟨[pys "PF00001"], [1], [], [1], false, fun _ _ => []⟩
      = ([(0 : ℚ), 1, 1, 0, 0, 0, 0, 0, 1, 1, 0, 0], true) := by
  rw [generate_dist_matrix_empty_sentinel 0 1 RunMode.global [] ⟨1/5, 3/4, 1/20, 2⟩
    ⟨[], [], [], [], false, fun _ _ => []⟩
    ⟨[pys "PF00001"], [1], [], [1], false, fun _ _ => []⟩ (Or.inl rfl)]
  norm_num

theorem sum_toFinset_count_ite (l : List PyStr) (p : PyStr → Bool) :
    (∑ d ∈ l.toFinset, if p d then l.count d else 0) = l.countP p := by
  induction l with
  | nil => simp
  | cons x xs ih =>
    rw [List.toFinset_cons, List.countP_cons]
    have hcount : ∀ d : PyStr, (x :: xs).count d = xs.count d + if x = d then 1 else 0 := by
      intro d
      rw [List.count_cons]
      congr 1
      by_cases hxd : x = d
      · simp [hxd]
      · have hne : (x == d) = false := by
          simpa using hxd
        simp [hne, hxd]
    have hsplit : (∑ d ∈ insert x xs.toFinset, if p d then (x :: xs).count d else 0)
        = (∑ d ∈ insert x xs.toFinset, if p d then xs.count d else 0)
          + ∑ d ∈ insert x xs.toFinset, (if p d then (if x = d then 1 else 0) else 0) := by
      rw [← Finset.sum_add_distrib]
      apply Finset.sum_congr rfl
      intro d _
      rw [hcount d]
      by_cases hp : p d = true
      · simp [hp]
      · simp [hp]
    rw [hsplit]
    have hsecond : (∑ d ∈ insert x xs.toFinset, (if p d then (if x = d then 1 else 0) else 0))
        = if p x then 1 else 0 := by
      have hrw : ∀ d ∈ insert x xs.toFinset,
          (if p d then (if x = d then 1 else 0) else 0)
            = if x = d then (if p x then 1 else 0) else 0 := by
        intro d _
        by_cases hxd : x = d
        · subst hxd
          simp
        · simp [hxd]
      rw [Finset.sum_congr rfl hrw, Finset.sum_ite_eq]
      simp
    have hfirst : (∑ d ∈ insert x xs.toFinset, if p d then xs.count d else 0)
        = xs.countP p := by
      by_cases hx : x ∈ xs.toFinset
      · rw [Finset.insert_eq_self.mpr hx, ih]
      · rw [Finset.sum_insert hx]
        have hzero : xs.count x = 0 := by
          have hnotmem : x ∉ xs := fun hc => hx (List.mem_toFinset.mpr hc)
          exact List.count_eq_zero.mpr hnotmem
        rw [hzero, ih]
        simp
    rw [hsecond, hfirst]

theorem sum_toFinset_count_ite_not (l : List PyStr) (q : PyStr → Bool) :
    (∑ d ∈ l.toFinset, if q d then 0 else l.count d) = l.countP (fun d => !(q d)) := by
  rw [← sum_toFinset_count_ite l (fun d => !(q d))]
  apply Finset.sum_congr rfl
  intro d _
  by_cases hq : q d = true
  · simp [hq]
  · have : q d = false := by simpa using hq
    simp [this]

/-- Claim C1: for disjoint domain-family sets (both clusters non-empty) the pair
scorer short-circuits to distance 1 regardless of the class weights, with Jaccard 0,
DSS 0, AI 0, raw DSS non-anchor and anchor both 1, `S`/`S_anchor` equal to the total
instance counts over both clusters partitioned by anchor vs non-anchor membership,
and both slice starts 0. -/
theorem cluster_distance_lcs_disjoint (mode : RunMode) (anchors : List PyStr)
    (w : ClassWeights) (A B : ClusterData)
    (hdisj : A.domlist.toFinset ∩ B.domlist.toFinset = ∅)
    (hA : A.domlist ≠ []) (hB : B.domlist ≠ []) :
    cluster_distance_lcs mode anchors w A B =
      ⟨1, 0, 0, 0, 1, 1,
        (A.domlist ++ B.domlist).countP (fun d => !(isAnchor anchors d)),
        (A.domlist ++ B.domlist).countP (fun d => isAnchor anchors d), 0, 0⟩ := by
  simp only [cluster_distance_lcs, cluster_distance_lcs_full]
  rw [hdisj]
  simp only [Finset.card_empty, if_true, eq_self_iff_true]
  have hS : ((∑ d ∈ A.domlist.toFinset, if isAnchor anchors d then 0 else A.domlist.count d)
      + ∑ d ∈ B.domlist.toFinset, (if isAnchor anchors d then 0 else B.domlist.count d))
      = (A.domlist ++ B.domlist).countP (fun d => !(isAnchor anchors d)) := by
    rw [sum_toFinset_count_ite_not A.domlist (isAnchor anchors),
      sum_toFinset_count_ite_not B.domlist (isAnchor anchors), List.countP_append]
  have hSa : ((∑ d ∈ A.domlist.toFinset, if isAnchor anchors d then A.domlist.count d else 0)
      + ∑ d ∈ B.domlist.toFinset, (if isAnchor anchors d then B.domlist.count d else 0))
      = (A.domlist ++ B.domlist).countP (fun d => isAnchor anchors d) := by
    rw [sum_toFinset_count_ite A.domlist (isAnchor anchors),
      sum_toFinset_count_ite B.domlist (isAnchor anchors), List.countP_append]
  rw [hS, hSa]

/-- Witness for claim C1 at a concrete disjoint pair with one anchor family. -/
theorem cluster_distance_lcs_disjoint_witness :
    cluster_distance_lcs RunMode.lcs [pys "PF00009"] ⟨1/2, 1/4, 1/4, 3⟩
      ⟨[pys "PF00001", pys "PF00009"], [2], [0], [1], false, fun _ _ => pys "MA"⟩
      ⟨[pys "PF00010", pys "PF00011"], [1, 1], [0], [1, 1], true, fun _ _ => pys "MA"⟩
      = ⟨1, 0, 0, 0, 1, 1, 3, 1, 0, 0⟩ := by
  rw [cluster_distance_lcs_disjoint RunMode.lcs [pys "PF00009"] ⟨1/2, 1/4, 1/4, 3⟩
    ⟨[pys "PF00001", pys "PF00009"], [2], [0], [1], false, fun _ _ => pys "MA"⟩
    ⟨[pys "PF00010", pys "PF00011"], [1, 1], [0], [1, 1], true, fun _ _ => pys "MA"⟩
    (by decide) (by decide) (by decide)]
  with_unfolding_all decide

/-! Slice invariants: the B-side start and length stay within the gene string. -/

/-- The B-side slice invariant maintained by seeding and expansion. -/
def SliceInvB (st : SliceState) : Prop :=
  0 ≤ st.startB ∧ 0 ≤ st.lenB ∧ st.startB + st.lenB ≤ st.Bstr.length

theorem chooseOrientation_invB (Astr bstr : List PyStr) (dcg_b : List ℕ) :
    SliceInvB (chooseOrientation Astr bstr dcg_b)
      ∧ (chooseOrientation Astr bstr dcg_b).Bstr.length = bstr.length := by
  unfold SliceInvB
  simp only [chooseOrientation]
  have h1 := (find_longest_match_bounds Astr bstr).2
  have h2 := (find_longest_match_bounds Astr bstr.reverse).2
  rw [List.length_reverse] at h2
  split_ifs with hc
  · refine ⟨⟨?_, ?_, ?_⟩, rfl⟩ <;> dsimp only
    · positivity
    · positivity
    · push_cast
      omega
  · refine ⟨⟨?_, ?_, ?_⟩, ?_⟩ <;> dsimp only
    · positivity
    · positivity
    · rw [List.length_reverse]
      push_cast
      omega
    · rw [List.length_reverse]

theorem expandLeft_invB (Astr : List PyStr) (st : SliceState) (h : SliceInvB st) :
    SliceInvB (expandLeft Astr st) ∧ (expandLeft Astr st).Bstr = st.Bstr := by
  obtain ⟨h0, h1, h2⟩ := h
  unfold SliceInvB
  simp only [expandLeft]
  have htake : (st.Bstr.take st.startB.toNat).length = st.startB.toNat := by
    rw [List.length_take]
    omega
  have hle := score_expansion_a_le (st.Bstr.take st.startB.toNat)
    (Astr.take st.startA.toNat) false
  rw [htake] at hle
  split_ifs with hc1 hc2 hc3
  · -- equal budgets, A drives: B is fully consumed on the left
    refine ⟨⟨?_, ?_, ?_⟩, rfl⟩ <;> dsimp only <;> omega
  · -- equal budgets, B drives: B expands by the recorded length
    refine ⟨⟨?_, ?_, ?_⟩, rfl⟩ <;> dsimp only <;> omega
  · -- A is shorter upstream: B expands by the recorded length
    refine ⟨⟨?_, ?_, ?_⟩, rfl⟩ <;> dsimp only <;> omega
  · -- B is shorter upstream: B is fully consumed on the left
    refine ⟨⟨?_, ?_, ?_⟩, rfl⟩ <;> dsimp only <;> omega

theorem expandRight_invB (Astr : List PyStr) (st : SliceState) (lenG_A lenG_B : ℕ)
    (h : SliceInvB st) :
    SliceInvB (expandRight Astr st lenG_A lenG_B)
      ∧ (expandRight Astr st lenG_A lenG_B).Bstr = st.Bstr := by
  obtain ⟨h0, h1, h2⟩ := h
  unfold SliceInvB
  simp only [expandRight]
  have hdrop : (st.Bstr.drop (st.startB + st.lenB).toNat).length
      = st.Bstr.length - (st.startB + st.lenB).toNat := List.length_drop _ _
  have hle := score_expansion_a_le (st.Bstr.drop (st.startB + st.lenB).toNat)
    (Astr.drop (st.startA + st.lenA).toNat) true
  rw [hdrop] at hle
  split_ifs with hc1 hc2 hc3
  · refine ⟨⟨?_, ?_, ?_⟩, rfl⟩ <;> dsimp only <;> omega
  · refine ⟨⟨?_, ?_, ?_⟩, rfl⟩ <;> dsimp only <;> omega
  · refine ⟨⟨?_, ?_, ?_⟩, rfl⟩ <;> dsimp only <;> omega
  · refine ⟨⟨?_, ?_, ?_⟩, rfl⟩ <;> dsimp only <;> omega

theorem expandSlices_invB (Astr : List PyStr) (st : SliceState) (lenG_A lenG_B : ℕ)
    (h : SliceInvB st) :
    SliceInvB (expandSlices Astr st lenG_A lenG_B)
      ∧ (expandSlices Astr st lenG_A lenG_B).Bstr = st.Bstr := by
  simp only [expandSlices]
  split
  · have hL := expandLeft_invB Astr st h
    have hR := expandRight_invB Astr (expandLeft Astr st) lenG_A lenG_B hL.1
    exact ⟨hR.1, hR.2.trans hL.2⟩
  · exact ⟨h, rfl⟩

theorem clusterTokens_length_le (c : ClusterData) :
    (clusterTokens c).length ≤ c.dcg.length := by
  unfold clusterTokens
  rw [geneTokens_length]
  simp [List.length_zip]

/-- The final B-side slice start of `computeRanges` is nonnegative (in particular the
reversed-orientation remap `lenG_B - startB - lenB` never goes negative). -/
theorem remapStartB_nonneg (st : SliceState) (n : ℕ) (h0 : 0 ≤ st.startB)
    (hsum : st.startB + st.lenB ≤ (n : ℤ)) : 0 ≤ remapStartB st n := by
  unfold remapStartB
  split <;> omega

theorem gateRanges_startB (A B : ClusterData) (st : SliceState) :
    (gateRanges A B st).startB = st.startB
      ∨ (gateRanges A B st).startB = remapStartB st B.dcg.length := by
  simp only [gateRanges]
  split_ifs with h1 h2
  · right
    rfl
  · right
    rfl
  · left
    rfl

theorem computeRanges_startB_nonneg (mode : RunMode) (A B : ClusterData) :
    0 ≤ (computeRanges mode A B).startB := by
  have hseed := chooseOrientation_invB (clusterTokens A) (clusterTokens B) B.dcg
  have hBlen := clusterTokens_length_le B
  have hexp := expandSlices_invB (clusterTokens A)
    (chooseOrientation (clusterTokens A) (clusterTokens B) B.dcg)
    A.dcg.length B.dcg.length hseed.1
  obtain ⟨⟨e0, e1, e2⟩, eB⟩ := hexp
  rw [eB, hseed.2] at e2
  simp only [computeRanges]
  split
  · rcases gateRanges_startB A B (expandSlices (clusterTokens A)
      (chooseOrientation (clusterTokens A) (clusterTokens B) B.dcg)
      A.dcg.length B.dcg.length) with h | h
    · rw [h]
      exact e0
    · rw [h]
      apply remapStartB_nonneg _ _ e0
      omega
  · exact hseed.1.1

/-- Projections of the scoring path of `cluster_distance_lcs_full` in terms of
`computeRanges`, available whenever the domain-family sets intersect. -/
theorem cluster_distance_lcs_full_proj (mode : RunMode) (anchors : List PyStr)
    (w : ClassWeights) (A B : ClusterData)
    (hshared : (A.domlist.toFinset ∩ B.domlist.toFinset).card ≠ 0) :
    (cluster_distance_lcs_full mode anchors w A B).res.lcsStartB
      = (if (computeRanges mode A B).reverse = true then -(computeRanges mode A B).startB
         else (computeRanges mode A B).startB)
    ∧ (cluster_distance_lcs_full mode anchors w A B).sliceStartB
      = (computeRanges mode A B).startB
    ∧ (cluster_distance_lcs_full mode anchors w A B).reverse
      = (computeRanges mode A B).reverse := by
  simp only [cluster_distance_lcs_full]
  rw [if_neg hshared]
  exact ⟨rfl, rfl, rfl⟩

/-- Claim C9: when the domain-family sets intersect, the returned `lcsStartB` is the
negation of the final B slice start if the reversed orientation of B won the seed
(hence it is at most 0), and the nonnegative start itself for forward pairs. -/
theorem cluster_distance_lcs_reverse_startB (mode : RunMode) (anchors : List PyStr)
    (w : ClassWeights) (A B : ClusterData)
    (hshared : (A.domlist.toFinset ∩ B.domlist.toFinset).card ≠ 0) :
    ((cluster_distance_lcs_full mode anchors w A B).reverse = true →
      (cluster_distance_lcs_full mode anchors w A B).res.lcsStartB
          = -(cluster_distance_lcs_full mode anchors w A B).sliceStartB
        ∧ (cluster_distance_lcs_full mode anchors w A B).res.lcsStartB ≤ 0) ∧
    ((cluster_distance_lcs_full mode anchors w A B).reverse = false →
      (cluster_distance_lcs_full mode anchors w A B).res.lcsStartB
          = (cluster_distance_lcs_full mode anchors w A B).sliceStartB
        ∧ 0 ≤ (cluster_distance_lcs_full mode anchors w A B).res.lcsStartB) := by
  obtain ⟨hl, hs, hr⟩ := cluster_distance_lcs_full_proj mode anchors w A B hshared
  have hstart := computeRanges_startB_nonneg mode A B
  constructor
  · intro hrev
    rw [hr] at hrev
    rw [hl, hs, hrev, if_pos rfl]
    exact ⟨rfl, by omega⟩
  · intro hrev
    rw [hr] at hrev
    rw [hl, hs, hrev, if_neg (by simp)]
    exact ⟨rfl, by omega⟩

/-- Witness for claim C9: a concrete pair whose reverse orientation wins, with the
returned `lcsStartB` nonpositive, and a concrete forward pair with it nonnegative. -/
theorem cluster_distance_lcs_reverse_startB_witness :
    ((cluster_distance_lcs_full RunMode.global [] ⟨20/100, 75/100, 5/100, 2⟩
        ⟨[pys "PF00001", pys "PF00002"], [1, 1], [0], [1, 1], false, fun _ _ => pys "MA"⟩
        ⟨[pys "PF00002", pys "PF00001"], [1, 1], [0], [1, 1], false, fun _ _ => pys "MA"⟩).res.lcsStartB
      ≤ 0)
    ∧ (0 ≤ (cluster_distance_lcs_full RunMode.global [] ⟨20/100, 75/100, 5/100, 2⟩
        ⟨[pys "PF00001", pys "PF00002"], [1, 1], [0], [1, 1], false, fun _ _ => pys "MA"⟩
        ⟨[pys "PF00001", pys "PF00002"], [1, 1], [0], [1, 1], false, fun _ _ => pys "MA"⟩).res.lcsStartB) := by
  constructor
  · exact ((cluster_distance_lcs_reverse_startB RunMode.global [] ⟨20/100, 75/100, 5/100, 2⟩
      ⟨[pys "PF00001", pys "PF00002"], [1, 1], [0], [1, 1], false, fun _ _ => pys "MA"⟩
      ⟨[pys "PF00002", pys "PF00001"], [1, 1], [0], [1, 1], false, fun _ _ => pys "MA"⟩
      (by decide)).1 (by with_unfolding_all decide)).2
  · exact ((cluster_distance_lcs_reverse_startB RunMode.global [] ⟨20/100, 75/100, 5/100, 2⟩
      ⟨[pys "PF00001", pys "PF00002"], [1, 1], [0], [1, 1], false, fun _ _ => pys "MA"⟩
      ⟨[pys "PF00001", pys "PF00002"], [1, 1], [0], [1, 1], false, fun _ _ => pys "MA"⟩
      (by decide)).2 (by with_unfolding_all decide)).2


/-! Range bounds for every score component (claim C5). -/

theorem bgc_class_weight_nonneg :
    ∀ p ∈ bgc_class_weight, 0 ≤ p.2.wJ ∧ 0 ≤ p.2.wDSS ∧ 0 ≤ p.2.wAI ∧ 0 ≤ p.2.boost := by
  with_unfolding_all decide

theorem jaccardIndex_bounds (sA sB : Finset PyStr) :
    0 ≤ jaccardIndex sA sB ∧ jaccardIndex sA sB ≤ 1 := by
  unfold jaccardIndex
  constructor
  · positivity
  · rcases Nat.eq_zero_or_pos (sA ∪ sB).card with hc | hc
    · rw [hc]
      norm_num
    · rw [div_le_one (by exact_mod_cast hc)]
      exact_mod_cast Finset.card_le_card Finset.inter_subset_union

theorem adjacencyIndex_bounds (sliceA sliceB : List PyStr) :
    0 ≤ adjacencyIndex sliceA sliceB ∧ adjacencyIndex sliceA sliceB ≤ 1 := by
  unfold adjacencyIndex
  split_ifs with h
  · norm_num
  · constructor
    · positivity
    · rcases Nat.eq_zero_or_pos (adjPairs sliceA ∪ adjPairs sliceB).card with hc | hc
      · rw [hc]
        norm_num
      · rw [div_le_one (by exact_mod_cast hc)]
        exact_mod_cast Finset.card_le_card Finset.inter_subset_union

theorem sharedSeqDist_nonneg (A B : ClusterData) (ri : RangeInfo) (d : PyStr) :
    0 ≤ sharedSeqDist A B ri d := by
  simp only [sharedSeqDist]
  have h1 : (0:ℚ) ≤ |((numCopies ri.Atop ri.Abot d : ℚ)) - (numCopies ri.Btop ri.Bbot d : ℚ)| :=
    abs_nonneg _
  have h2 := minAssignCost_nonneg (numCopies ri.Atop ri.Abot d) (numCopies ri.Btop ri.Bbot d)
    (fun i j => seqDist (A.aligned d (i + ri.Abot d)) (B.aligned d (j + ri.Bbot d)))
    (fun i j => seqDist_nonneg _ _)
  linarith

theorem sharedSeqDist_le_max (A B : ClusterData) (ri : RangeInfo) (d : PyStr) :
    sharedSeqDist A B ri d
      ≤ ((max (numCopies ri.Atop ri.Abot d) (numCopies ri.Btop ri.Bbot d) : ℕ) : ℚ) := by
  simp only [sharedSeqDist]
  have hmin := minAssignCost_le_min (numCopies ri.Atop ri.Abot d) (numCopies ri.Btop ri.Bbot d)
    (fun i j => seqDist (A.aligned d (i + ri.Abot d)) (B.aligned d (j + ri.Bbot d)))
    (fun i j => seqDist_le_one _ _)
  rcases le_total (numCopies ri.Atop ri.Abot d) (numCopies ri.Btop ri.Bbot d) with h | h
  · rw [abs_of_nonpos (sub_nonpos.mpr (by exact_mod_cast h))]
    rw [max_eq_right h]
    rw [min_eq_left h] at hmin
    push_cast at hmin ⊢
    linarith
  · rw [abs_of_nonneg (sub_nonneg.mpr (by exact_mod_cast h))]
    rw [max_eq_left h]
    rw [min_eq_right h] at hmin
    push_cast at hmin ⊢
    linarith

theorem dssSums_bounds (anchors : List PyStr) (A B : ClusterData) (ri : RangeInfo) :
    0 ≤ (dssSums anchors A B ri).1
    ∧ (dssSums anchors A B ri).1 ≤ ((dssSums anchors A B ri).2.2.1 : ℚ)
    ∧ 0 ≤ (dssSums anchors A B ri).2.1
    ∧ (dssSums anchors A B ri).2.1 ≤ ((dssSums anchors A B ri).2.2.2 : ℚ) := by
  simp only [dssSums]
  refine ⟨?_, ?_, ?_, ?_⟩
  · apply add_nonneg (Nat.cast_nonneg _)
    apply Finset.sum_nonneg
    intro d _
    split_ifs
    · exact le_refl 0
    · exact sharedSeqDist_nonneg A B ri d
  · rw [Nat.cast_add, Nat.cast_sum (ri.setA ∩ ri.setB)]
    apply add_le_add le_rfl
    apply Finset.sum_le_sum
    intro d _
    split_ifs
    · norm_num
    · exact sharedSeqDist_le_max A B ri d
  · apply add_nonneg (Nat.cast_nonneg _)
    apply Finset.sum_nonneg
    intro d _
    split_ifs
    · exact sharedSeqDist_nonneg A B ri d
    · exact le_refl 0
  · rw [Nat.cast_add, Nat.cast_sum (ri.setA ∩ ri.setB)]
    apply add_le_add le_rfl
    apply Finset.sum_le_sum
    intro d _
    split_ifs
    · exact sharedSeqDist_le_max A B ri d
    · norm_num

theorem combineDSS_dss_bounds (boost ddNa ddA : ℚ) (S Sa : ℕ)
    (hboost : 0 ≤ boost) (h1 : 0 ≤ ddNa) (h2 : ddNa ≤ (S : ℚ))
    (h3 : 0 ≤ ddA) (h4 : ddA ≤ (Sa : ℚ)) :
    0 ≤ (combineDSS boost ddNa ddA S Sa).1 ∧ (combineDSS boost ddNa ddA S Sa).1 ≤ 1 := by
  simp only [combineDSS]
  split_ifs with hc1 hc2
  · obtain ⟨hSa, hS⟩ := hc1
    have hSpos : (0:ℚ) < (S : ℚ) := by exact_mod_cast Nat.pos_of_ne_zero hS
    have hSapos : (0:ℚ) < (Sa : ℚ) := by exact_mod_cast Nat.pos_of_ne_zero hSa
    have hsum : (0:ℚ) < (((S + Sa : ℕ)) : ℚ) := by push_cast; linarith
    have hnp : (0:ℚ) < (S : ℚ) / ((S + Sa : ℕ) : ℚ) := div_pos hSpos hsum
    have hap : (0:ℚ) ≤ (Sa : ℚ) / ((S + Sa : ℕ) : ℚ) := le_of_lt (div_pos hSapos hsum)
    have hD : (0:ℚ) < (Sa : ℚ) / ((S + Sa : ℕ) : ℚ) * boost + (S : ℚ) / ((S + Sa : ℕ) : ℚ) := by
      have := mul_nonneg hap hboost
      linarith
    have hna0 : 0 ≤ ddNa / (S : ℚ) := div_nonneg h1 hSpos.le
    have hna1 : ddNa / (S : ℚ) ≤ 1 := (div_le_one hSpos).mpr h2
    have haa0 : 0 ≤ ddA / (Sa : ℚ) := div_nonneg h3 hSapos.le
    have haa1 : ddA / (Sa : ℚ) ≤ 1 := (div_le_one hSapos).mpr h4
    have hW1 : 0 ≤ (S : ℚ) / ((S + Sa : ℕ) : ℚ)
        / ((Sa : ℚ) / ((S + Sa : ℕ) : ℚ) * boost + (S : ℚ) / ((S + Sa : ℕ) : ℚ)) :=
      div_nonneg hnp.le hD.le
    have hW2 : 0 ≤ (Sa : ℚ) / ((S + Sa : ℕ) : ℚ) * boost
        / ((Sa : ℚ) / ((S + Sa : ℕ) : ℚ) * boost + (S : ℚ) / ((S + Sa : ℕ) : ℚ)) :=
      div_nonneg (mul_nonneg hap hboost) hD.le
    have hWsum : (S : ℚ) / ((S + Sa : ℕ) : ℚ)
          / ((Sa : ℚ) / ((S + Sa : ℕ) : ℚ) * boost + (S : ℚ) / ((S + Sa : ℕ) : ℚ))
        + (Sa : ℚ) / ((S + Sa : ℕ) : ℚ) * boost
          / ((Sa : ℚ) / ((S + Sa : ℕ) : ℚ) * boost + (S : ℚ) / ((S + Sa : ℕ) : ℚ)) = 1 := by
      rw [div_add_div_same, add_comm]
      exact div_self (ne_of_gt hD)
    have hm1 : (S : ℚ) / ((S + Sa : ℕ) : ℚ)
          / ((Sa : ℚ) / ((S + Sa : ℕ) : ℚ) * boost + (S : ℚ) / ((S + Sa : ℕ) : ℚ))
          * (ddNa / (S : ℚ))
        ≤ (S : ℚ) / ((S + Sa : ℕ) : ℚ)
          / ((Sa : ℚ) / ((S + Sa : ℕ) : ℚ) * boost + (S : ℚ) / ((S + Sa : ℕ) : ℚ)) :=
      mul_le_of_le_one_right hW1 hna1
    have hm2 : (Sa : ℚ) / ((S + Sa : ℕ) : ℚ) * boost
          / ((Sa : ℚ) / ((S + Sa : ℕ) : ℚ) * boost + (S : ℚ) / ((S + Sa : ℕ) : ℚ))
          * (ddA / (Sa : ℚ))
        ≤ (Sa : ℚ) / ((S + Sa : ℕ) : ℚ) * boost
          / ((Sa : ℚ) / ((S + Sa : ℕ) : ℚ) * boost + (S : ℚ) / ((S + Sa : ℕ) : ℚ)) :=
      mul_le_of_le_one_right hW2 haa1
    have hz1 := mul_nonneg hW1 hna0
    have hz2 := mul_nonneg hW2 haa0
    constructor
    · dsimp only
      linarith
    · dsimp only
      linarith
  · rcases Nat.eq_zero_or_pos S with hS0 | hSpos
    · subst hS0
      have hdd : ddNa = 0 := le_antisymm (by exact_mod_cast h2) h1
      constructor
      · dsimp only
        rw [hdd]
        norm_num
      · dsimp only
        rw [hdd]
        norm_num
    · have hSq : (0:ℚ) < (S : ℚ) := by exact_mod_cast hSpos
      have hdiv0 : 0 ≤ ddNa / (S : ℚ) := div_nonneg h1 hSq.le
      have hdiv1 : ddNa / (S : ℚ) ≤ 1 := (div_le_one hSq).mpr h2
      constructor
      · dsimp only
        linarith
      · dsimp only
        linarith
  · have hSa : Sa ≠ 0 := hc2
    have hSaq : (0:ℚ) < (Sa : ℚ) := by exact_mod_cast Nat.pos_of_ne_zero hSa
    have hdiv0 : 0 ≤ ddA / (Sa : ℚ) := div_nonneg h3 hSaq.le
    have hdiv1 : ddA / (Sa : ℚ) ≤ 1 := (div_le_one hSaq).mpr h4
    constructor
    · dsimp only
      linarith
    · dsimp only
      linarith

/-- Projections of the scoring path (non-disjoint pairs) of
`cluster_distance_lcs_full` onto its component scores. -/
theorem cluster_distance_lcs_full_score_proj (mode : RunMode) (anchors : List PyStr)
    (w : ClassWeights) (A B : ClusterData)
    (hshared : ¬ (A.domlist.toFinset ∩ B.domlist.toFinset).card = 0) :
    (cluster_distance_lcs_full mode anchors w A B).res.jaccard
        = jaccardIndex (computeRanges mode A B).setA (computeRanges mode A B).setB
    ∧ (cluster_distance_lcs_full mode anchors w A B).res.dss
        = (combineDSS w.boost (dssSums anchors A B (computeRanges mode A B)).1
            (dssSums anchors A B (computeRanges mode A B)).2.1
            (dssSums anchors A B (computeRanges mode A B)).2.2.1
            (dssSums anchors A B (computeRanges mode A B)).2.2.2).1
    ∧ (cluster_distance_lcs_full mode anchors w A B).res.ai
        = adjacencyIndex
            ((A.domlist.drop (computeRanges mode A B).domAstart).take
              ((computeRanges mode A B).domAend - (computeRanges mode A B).domAstart))
            ((B.domlist.drop (computeRanges mode A B).domBstart).take
              ((computeRanges mode A B).domBend - (computeRanges mode A B).domBstart))
    ∧ (cluster_distance_lcs_full mode anchors w A B).rawDistance
        = 1 - w.wJ * (cluster_distance_lcs_full mode anchors w A B).res.jaccard
            - w.wDSS * (cluster_distance_lcs_full mode anchors w A B).res.dss
            - w.wAI * (cluster_distance_lcs_full mode anchors w A B).res.ai
    ∧ (cluster_distance_lcs_full mode anchors w A B).res.distance
        = (if (cluster_distance_lcs_full mode anchors w A B).rawDistance < 0 then 0
           else (cluster_distance_lcs_full mode anchors w A B).rawDistance)
    ∧ (cluster_distance_lcs_full mode anchors w A B).negLogged
        = decide ((cluster_distance_lcs_full mode anchors w A B).rawDistance
            < -(1/1000000 : ℚ)) := by
  simp only [cluster_distance_lcs_full]
  rw [if_neg hshared]
  exact ⟨rfl, rfl, rfl, rfl, rfl, rfl⟩

/-- Claim C5: for every scored pair with class weights drawn from the program's
weight table, the returned distance, Jaccard, DSS and AI all lie in `[0, 1]`; the
returned distance is the raw composite distance clamped below at 0; and the
negative-distance diagnostic fires exactly when the raw value is below `-1e-6`
(so values in `(-1e-6, 0)` are clamped silently). -/
theorem cluster_distance_lcs_range (mode : RunMode) (anchors : List PyStr)
    (cls : PyStr) (w : ClassWeights) (A B : ClusterData)
    (hw : (cls, w) ∈ bgc_class_weight) :
    (0 ≤ (cluster_distance_lcs_full mode anchors w A B).res.distance
      ∧ (cluster_distance_lcs_full mode anchors w A B).res.distance ≤ 1)
    ∧ (0 ≤ (cluster_distance_lcs_full mode anchors w A B).res.jaccard
      ∧ (cluster_distance_lcs_full mode anchors w A B).res.jaccard ≤ 1)
    ∧ (0 ≤ (cluster_distance_lcs_full mode anchors w A B).res.dss
      ∧ (cluster_distance_lcs_full mode anchors w A B).res.dss ≤ 1)
    ∧ (0 ≤ (cluster_distance_lcs_full mode anchors w A B).res.ai
      ∧ (cluster_distance_lcs_full mode anchors w A B).res.ai ≤ 1)
    ∧ (cluster_distance_lcs_full mode anchors w A B).res.distance
        = (if (cluster_distance_lcs_full mode anchors w A B).rawDistance < 0 then 0
           else (cluster_distance_lcs_full mode anchors w A B).rawDistance)
    ∧ ((cluster_distance_lcs_full mode anchors w A B).negLogged = true
        ↔ (cluster_distance_lcs_full mode anchors w A B).rawDistance < -(1/1000000 : ℚ)) := by
  have hwpos : 0 ≤ w.wJ ∧ 0 ≤ w.wDSS ∧ 0 ≤ w.wAI ∧ 0 ≤ w.boost :=
    bgc_class_weight_nonneg (cls, w) hw
  by_cases hdisj : (A.domlist.toFinset ∩ B.domlist.toFinset).card = 0
  · simp only [cluster_distance_lcs_full]
    rw [if_pos hdisj]
    refine ⟨⟨?_, ?_⟩, ⟨?_, ?_⟩, ⟨?_, ?_⟩, ⟨?_, ?_⟩, ?_, ?_⟩ <;> norm_num
  · obtain ⟨hj, hd, ha, hraw, hclamp, hneg⟩ :=
      cluster_distance_lcs_full_score_proj mode anchors w A B hdisj
    have hJ := jaccardIndex_bounds (computeRanges mode A B).setA (computeRanges mode A B).setB
    have hS := dssSums_bounds anchors A B (computeRanges mode A B)
    have hDSS := combineDSS_dss_bounds w.boost
      (dssSums anchors A B (computeRanges mode A B)).1
      (dssSums anchors A B (computeRanges mode A B)).2.1
      (dssSums anchors A B (computeRanges mode A B)).2.2.1
      (dssSums anchors A B (computeRanges mode A B)).2.2.2
      hwpos.2.2.2 hS.1 hS.2.1 hS.2.2.1 hS.2.2.2
    have hAI := adjacencyIndex_bounds
      ((A.domlist.drop (computeRanges mode A B).domAstart).take
        ((computeRanges mode A B).domAend - (computeRanges mode A B).domAstart))
      ((B.domlist.drop (computeRanges mode A B).domBstart).take
        ((computeRanges mode A B).domBend - (computeRanges mode A B).domBstart))
    have hraw_le : (cluster_distance_lcs_full mode anchors w A B).rawDistance ≤ 1 := by
      rw [hraw, hj, hd, ha]
      have t1 := mul_nonneg hwpos.1 hJ.1
      have t2 := mul_nonneg hwpos.2.1 hDSS.1
      have t3 := mul_nonneg hwpos.2.2.1 hAI.1
      linarith
    refine ⟨⟨?_, ?_⟩, ?_, ?_, ?_, hclamp, ?_⟩
    · rw [hclamp]
      split_ifs with h
      · exact le_refl 0
      · linarith [not_lt.mp h]
    · rw [hclamp]
      split_ifs with h
      · norm_num
      · exact hraw_le
    · rw [hj]
      exact hJ
    · rw [hd]
      exact hDSS
    · rw [ha]
      exact hAI
    · rw [hneg]
      simp

/-- Witness for claim C5: the bounds evaluated at a concrete pair scored with the
`mix` weights. -/
theorem cluster_distance_lcs_range_witness :
    0 ≤ (cluster_distance_lcs_full RunMode.global [] ⟨20/100, 75/100, 5/100, 2⟩
        ⟨[pys "PF00001"], [1], [0], [1], false, fun _ _ => pys "MA"⟩
        ⟨[pys "PF00001"], [1], [0], [1], false, fun _ _ => pys "MA"⟩).res.distance :=
  (cluster_distance_lcs_range RunMode.global [] (pys "mix") ⟨20/100, 75/100, 5/100, 2⟩
    ⟨[pys "PF00001"], [1], [0], [1], false, fun _ _ => pys "MA"⟩
    ⟨[pys "PF00001"], [1], [0], [1], false, fun _ _ => pys "MA"⟩
    (by with_unfolding_all decide)).1.1


/-! Self-comparison (claim C2). -/

theorem bgc_class_weight_sum :
    ∀ p ∈ bgc_class_weight, p.2.wJ + p.2.wDSS + p.2.wAI = 1 := by
  with_unfolding_all decide

theorem chooseOrientation_self (Astr : List PyStr) (dcg : List ℕ) :
    chooseOrientation Astr Astr dcg
      = ⟨false, dcg, Astr, 0, 0, (Astr.length : ℤ), (Astr.length : ℤ), Astr.length⟩ := by
  simp only [chooseOrientation, find_longest_match_self]
  rw [if_pos (by simpa using (find_longest_match_size_le Astr Astr.reverse).1)]
  simp

theorem expandLeft_self (Astr : List PyStr) (dcg : List ℕ) :
    expandLeft Astr ⟨false, dcg, Astr, 0, 0, (Astr.length : ℤ), (Astr.length : ℤ), Astr.length⟩
      = ⟨false, dcg, Astr, 0, 0, (Astr.length : ℤ), (Astr.length : ℤ), Astr.length⟩ := by
  simp [expandLeft, score_expansion, score_expansion_go]

theorem expandRight_self (Astr : List PyStr) (dcg : List ℕ) (g : ℕ) :
    expandRight Astr ⟨false, dcg, Astr, 0, 0, (Astr.length : ℤ), (Astr.length : ℤ), Astr.length⟩
        g g
      = ⟨false, dcg, Astr, 0, 0, (Astr.length : ℤ), (Astr.length : ℤ), Astr.length⟩ := by
  simp [expandRight, score_expansion, score_expansion_go, List.drop_length]

theorem expandSlices_self (Astr : List PyStr) (dcg : List ℕ) (g : ℕ) :
    expandSlices Astr ⟨false, dcg, Astr, 0, 0, (Astr.length : ℤ), (Astr.length : ℤ), Astr.length⟩
        g g
      = ⟨false, dcg, Astr, 0, 0, (Astr.length : ℤ), (Astr.length : ℤ), Astr.length⟩ := by
  simp only [expandSlices]
  split
  · rw [expandLeft_self, expandRight_self]
  · rfl

theorem fullRangeInfo_self (A : ClusterData) (st : SliceState) (b : ℤ) :
    (fullRangeInfo A A st b).setA = A.domlist.toFinset
    ∧ (fullRangeInfo A A st b).setB = A.domlist.toFinset
    ∧ (fullRangeInfo A A st b).Abot = (fullRangeInfo A A st b).Bbot
    ∧ (fullRangeInfo A A st b).Atop = (fullRangeInfo A A st b).Btop
    ∧ (fullRangeInfo A A st b).domAstart = 0
    ∧ (fullRangeInfo A A st b).domAend = A.domlist.length
    ∧ (fullRangeInfo A A st b).domBstart = 0
    ∧ (fullRangeInfo A A st b).domBend = A.domlist.length :=
  ⟨rfl, rfl, rfl, rfl, rfl, rfl, rfl, rfl⟩

theorem acceptedRangeInfo_self (A : ClusterData) (st : SliceState) (b2 : ℤ)
    (hsA : st.startA = 0) (hb2 : b2 = 0) (hlA : st.lenA.toNat = A.dcg.length)
    (hlB : st.lenB.toNat = A.dcg.length) (hsum : A.dcg.sum = A.domlist.length) :
    (acceptedRangeInfo A A st b2).setA = A.domlist.toFinset
    ∧ (acceptedRangeInfo A A st b2).setB = A.domlist.toFinset
    ∧ (acceptedRangeInfo A A st b2).Abot = (acceptedRangeInfo A A st b2).Bbot
    ∧ (acceptedRangeInfo A A st b2).Atop = (acceptedRangeInfo A A st b2).Btop
    ∧ (acceptedRangeInfo A A st b2).domAstart = 0
    ∧ (acceptedRangeInfo A A st b2).domAend = A.domlist.length
    ∧ (acceptedRangeInfo A A st b2).domBstart = 0
    ∧ (acceptedRangeInfo A A st b2).domBend = A.domlist.length := by
  simp only [acceptedRangeInfo, hsA, hb2, Int.toNat_zero, List.take_zero, List.sum_nil,
    List.drop_zero, hlA, hlB, List.take_length, hsum, Nat.zero_add, zero_add]
  simp

theorem computeRanges_self_facts (mode : RunMode) (A : ClusterData)
    (htok : (clusterTokens A).length = A.dcg.length)
    (hsum : A.dcg.sum = A.domlist.length) :
    (computeRanges mode A A).setA = A.domlist.toFinset
    ∧ (computeRanges mode A A).setB = A.domlist.toFinset
    ∧ (computeRanges mode A A).Abot = (computeRanges mode A A).Bbot
    ∧ (computeRanges mode A A).Atop = (computeRanges mode A A).Btop
    ∧ (computeRanges mode A A).domAstart = 0
    ∧ (computeRanges mode A A).domAend = A.domlist.length
    ∧ (computeRanges mode A A).domBstart = 0
    ∧ (computeRanges mode A A).domBend = A.domlist.length := by
  have hco := chooseOrientation_self (clusterTokens A) A.dcg
  have hex := expandSlices_self (clusterTokens A) A.dcg A.dcg.length
  simp only [computeRanges, hco, hex]
  split
  · simp only [gateRanges]
    split_ifs with h5 hcore
    · apply acceptedRangeInfo_self
      · rfl
      · rfl
      · simp [htok]
      · simp [htok]
      · exact hsum
    · exact fullRangeInfo_self A _ _
    · exact fullRangeInfo_self A _ _
  · exact fullRangeInfo_self A _ _

theorem dssSums_self_zero (anchors : List PyStr) (A : ClusterData) (ri : RangeInfo)
    (hset : ri.setA = ri.setB) (hbot : ri.Abot = ri.Bbot) (htop : ri.Atop = ri.Btop)
    (hal : ∀ d k, (A.aligned d k).any (fun c => !(c == '-')) = true) :
    (dssSums anchors A A ri).1 = 0 ∧ (dssSums anchors A A ri).2.1 = 0 := by
  have hshared : ∀ d, sharedSeqDist A A ri d = 0 := by
    intro d
    simp only [sharedSeqDist, hbot, htop]
    rw [sub_self, abs_zero, zero_add]
    apply minAssignCost_diag_zero
    · exact fun i j => seqDist_nonneg _ _
    · intro i _
      exact seqDist_self _ (hal d (i + ri.Bbot d))
  constructor
  · simp only [dssSums, hset, Finset.sdiff_self, Finset.union_self, Finset.inter_self,
      Finset.sum_empty, Nat.cast_zero, zero_add]
    apply Finset.sum_eq_zero
    intro d _
    split_ifs
    · rfl
    · exact hshared d
  · simp only [dssSums, hset, Finset.sdiff_self, Finset.union_self, Finset.inter_self,
      Finset.sum_empty, Nat.cast_zero, zero_add]
    apply Finset.sum_eq_zero
    intro d _
    split_ifs
    · exact hshared d
    · rfl

theorem combineDSS_zero (boost : ℚ) (S Sa : ℕ) : (combineDSS boost 0 0 S Sa).1 = 1 := by
  simp only [combineDSS]
  split_ifs <;> dsimp only <;> simp [zero_div]

theorem jaccardIndex_self (s : Finset PyStr) (h : s.Nonempty) : jaccardIndex s s = 1 := by
  unfold jaccardIndex
  rw [Finset.inter_self, Finset.union_self]
  apply div_self
  exact_mod_cast Finset.card_ne_zero.mpr h

theorem adjacencyIndex_self (L : List PyStr) (h2 : 2 ≤ L.length) :
    adjacencyIndex L L = 1 := by
  obtain ⟨a, L1, hL⟩ : ∃ a L1, L = a :: L1 := by
    cases L
    · simp at h2
    · exact ⟨_, _, rfl⟩
  obtain ⟨b, L2, hL1⟩ : ∃ b L2, L1 = b :: L2 := by
    cases L1
    · rw [hL] at h2
      simp at h2
    · exact ⟨_, _, rfl⟩
  subst hL1
  subst hL
  unfold adjacencyIndex
  rw [if_neg (by simp)]
  rw [Finset.inter_self, Finset.union_self]
  apply div_self
  have hmem : sortPair a b ∈ adjPairs (a :: b :: L2) := by
    unfold adjPairs
    rw [List.mem_toFinset]
    apply List.mem_map.mpr
    refine ⟨(a, b), ?_, rfl⟩
    simp
  exact_mod_cast Finset.card_ne_zero_of_mem hmem

/-- Claim C2 (counterexample): on a single-domain cluster the adjacency index of the
self-pair is 0, not 1, and the self-distance is the adjacency weight (1/20 for the
`mix` class weights), not 0. -/
theorem cluster_distance_lcs_self_counterexample :
    (cluster_distance_lcs RunMode.global [] ⟨20/100, 75/100, 5/100, 2⟩
        ⟨[pys "PF00001"], [1], [0], [1], false, fun _ _ => pys "MA"⟩
        ⟨[pys "PF00001"], [1], [0], [1], false, fun _ _ => pys "MA"⟩).ai = 0
    ∧ (cluster_distance_lcs RunMode.global [] ⟨20/100, 75/100, 5/100, 2⟩
        ⟨[pys "PF00001"], [1], [0], [1], false, fun _ _ => pys "MA"⟩
        ⟨[pys "PF00001"], [1], [0], [1], false, fun _ _ => pys "MA"⟩).distance = 1/20
    ∧ ¬ (cluster_distance_lcs RunMode.global [] ⟨20/100, 75/100, 5/100, 2⟩
        ⟨[pys "PF00001"], [1], [0], [1], false, fun _ _ => pys "MA"⟩
        ⟨[pys "PF00001"], [1], [0], [1], false, fun _ _ => pys "MA"⟩).distance = 0 := by
  with_unfolding_all decide

/-- Claim C2 (amended): self-identity holds for clusters with at least two domain
instances, consistent per-gene domain counts and orientations, no all-gap aligned
sequences, and class weights drawn from the weight table: in every mode,
`score(A, A)` yields distance 0 and Jaccard, DSS and AI all equal to 1. -/
theorem cluster_distance_lcs_self (mode : RunMode) (anchors : List PyStr)
    (cls : PyStr) (w : ClassWeights) (A : ClusterData)
    (hw : (cls, w) ∈ bgc_class_weight)
    (hlen : 2 ≤ A.domlist.length)
    (hsum : A.dcg.sum = A.domlist.length)
    (hgo : A.go.length = A.dcg.length)
    (hal : ∀ d k, (A.aligned d k).any (fun c => !(c == '-')) = true) :
    (cluster_distance_lcs mode anchors w A A).distance = 0
    ∧ (cluster_distance_lcs mode anchors w A A).jaccard = 1
    ∧ (cluster_distance_lcs mode anchors w A A).dss = 1
    ∧ (cluster_distance_lcs mode anchors w A A).ai = 1 := by
  have htok : (clusterTokens A).length = A.dcg.length := by
    unfold clusterTokens
    rw [geneTokens_length, List.length_zip, hgo, min_self]
  obtain ⟨hsA, hsB, hbot, htop2, hdAs, hdAe, hdBs, hdBe⟩ :=
    computeRanges_self_facts mode A htok hsum
  have hne : A.domlist.toFinset.Nonempty := by
    cases hd : A.domlist with
    | nil =>
      rw [hd] at hlen
      simp at hlen
    | cons a t =>
      exact ⟨a, by simp⟩
  have hdisj : ¬ (A.domlist.toFinset ∩ A.domlist.toFinset).card = 0 := by
    rw [Finset.inter_self]
    exact Finset.card_ne_zero.mpr hne
  obtain ⟨hj, hd, ha, hraw, hclamp, hneg⟩ :=
    cluster_distance_lcs_full_score_proj mode anchors w A A hdisj
  have hjac : (cluster_distance_lcs_full mode anchors w A A).res.jaccard = 1 := by
    rw [hj, hsA, hsB]
    exact jaccardIndex_self _ hne
  have hdz := dssSums_self_zero anchors A (computeRanges mode A A)
    (hsA.trans hsB.symm) hbot htop2 hal
  have hdss : (cluster_distance_lcs_full mode anchors w A A).res.dss = 1 := by
    rw [hd, hdz.1, hdz.2]
    exact combineDSS_zero w.boost _ _
  have hai : (cluster_distance_lcs_full mode anchors w A A).res.ai = 1 := by
    rw [ha, hdAs, hdAe, hdBs, hdBe]
    simp only [Nat.sub_zero, List.drop_zero, List.take_length]
    exact adjacencyIndex_self A.domlist hlen
  have hsumw : w.wJ + w.wDSS + w.wAI = 1 := bgc_class_weight_sum (cls, w) hw
  have hraw0 : (cluster_distance_lcs_full mode anchors w A A).rawDistance = 0 := by
    rw [hraw, hjac, hdss, hai]
    linarith
  have hdist : (cluster_distance_lcs_full mode anchors w A A).res.distance = 0 := by
    rw [hclamp, hraw0]
    norm_num
  exact ⟨hdist, hjac, hdss, hai⟩

/-- Witness for the amended claim C2: the self-identity at a concrete two-domain
cluster in `lcs` mode with the `mix` weights. -/
theorem cluster_distance_lcs_self_witness :
    (cluster_distance_lcs RunMode.lcs [] ⟨20/100, 75/100, 5/100, 2⟩
        ⟨[pys "PF00001", pys "PF00002"], [1, 1], [0], [1, 1], false, fun _ _ => pys "MA"⟩
        ⟨[pys "PF00001", pys "PF00002"], [1, 1], [0], [1, 1], false, fun _ _ => pys "MA"⟩).distance
      = 0 :=
  (cluster_distance_lcs_self RunMode.lcs [] (pys "mix") ⟨20/100, 75/100, 5/100, 2⟩
    ⟨[pys "PF00001", pys "PF00002"], [1, 1], [0], [1, 1], false, fun _ _ => pys "MA"⟩
    (by with_unfolding_all decide) (by decide) (by decide) (by decide)
    (fun d k => rfl)).1


/-! The validity gate (claim C3). -/

theorem acceptedRangeInfo_gateAccepted (A B : ClusterData) (st : SliceState) (b2 : ℤ) :
    (acceptedRangeInfo A B st b2).gateAccepted = true := rfl

theorem fullRangeInfo_gateAccepted (A B : ClusterData) (st : SliceState) (b : ℤ) :
    (fullRangeInfo A B st b).gateAccepted = false := rfl

/-- Claim C3 (amended): the expanded slice is accepted as an overlap iff
`min(lenA, lenB) >= 5` and a core-biosynthetic gene index lies within the CLOSED
interval `[start, start + len]` on each side (the source compares with `<=` at both
ends, not the half-open range of the claim), with `startB` first remapped to
`lenG_B - startB - lenB` when the reversed orientation won; on rejection the scored
ranges fall back to the full clusters. -/
theorem gateRanges_spec (A B : ClusterData) (st : SliceState) :
    ((gateRanges A B st).gateAccepted = true
      ↔ (5 ≤ min st.lenA st.lenB
          ∧ coreHit A.corePos st.startA st.lenA
          ∧ coreHit B.corePos (remapStartB st B.dcg.length) st.lenB))
    ∧ ((gateRanges A B st).gateAccepted = false →
        (gateRanges A B st).domAstart = 0
        ∧ (gateRanges A B st).domAend = A.domlist.length
        ∧ (gateRanges A B st).domBstart = 0
        ∧ (gateRanges A B st).domBend = B.domlist.length
        ∧ (gateRanges A B st).setA = A.domlist.toFinset
        ∧ (gateRanges A B st).setB = B.domlist.toFinset) := by
  simp only [gateRanges]
  split_ifs with h5 hcore
  · refine ⟨iff_of_true (acceptedRangeInfo_gateAccepted A B st _) ⟨h5, hcore.1, hcore.2⟩, ?_⟩
    intro hfalse
    rw [acceptedRangeInfo_gateAccepted] at hfalse
    cases hfalse
  · refine ⟨iff_of_false ?_ ?_, ?_⟩
    · rw [fullRangeInfo_gateAccepted]
      exact Bool.false_ne_true
    · intro hc
      exact hcore ⟨hc.2.1, hc.2.2⟩
    · intro h
      exact ⟨rfl, rfl, rfl, rfl, rfl, rfl⟩
  · refine ⟨iff_of_false ?_ ?_, ?_⟩
    · rw [fullRangeInfo_gateAccepted]
      exact Bool.false_ne_true
    · intro hc
      exact h5 hc.1
    · intro h
      exact ⟨rfl, rfl, rfl, rfl, rfl, rfl⟩

/-- Claim C3 (counterexample to the half-open reading): a pair whose only A-side core
gene index equals `startA + lenA` is still accepted by the gate, although no core
index lies in the half-open range `[startA, startA + lenA)`. -/
theorem gate_closed_range_counterexample :
    (cluster_distance_lcs_full RunMode.lcs []  ⟨20/100, 75/100, 5/100, 2⟩
        ⟨[pys "PF00001", pys "PF00002", pys "PF00003", pys "PF00004", pys "PF00005",
            pys "PF00010"],
          [1, 1, 1, 1, 1, 1], [5], [1, 1, 1, 1, 1, 1], false, fun _ _ => pys "MA"⟩
        ⟨[pys "PF00001", pys "PF00002", pys "PF00003", pys "PF00004", pys "PF00005"],
          [1, 1, 1, 1, 1], [0], [1, 1, 1, 1, 1], false, fun _ _ => pys "MA"⟩).gateAccepted
        = true
    ∧ (cluster_distance_lcs_full RunMode.lcs []  ⟨20/100, 75/100, 5/100, 2⟩
        ⟨[pys "PF00001", pys "PF00002", pys "PF00003", pys "PF00004", pys "PF00005",
            pys "PF00010"],
          [1, 1, 1, 1, 1, 1], [5], [1, 1, 1, 1, 1, 1], false, fun _ _ => pys "MA"⟩
        ⟨[pys "PF00001", pys "PF00002", pys "PF00003", pys "PF00004", pys "PF00005"],
          [1, 1, 1, 1, 1], [0], [1, 1, 1, 1, 1], false, fun _ _ => pys "MA"⟩).sliceStartA = 0
    ∧ (cluster_distance_lcs_full RunMode.lcs []  ⟨20/100, 75/100, 5/100, 2⟩
        ⟨[pys "PF00001", pys "PF00002", pys "PF00003", pys "PF00004", pys "PF00005",
            pys "PF00010"],
          [1, 1, 1, 1, 1, 1], [5], [1, 1, 1, 1, 1, 1], false, fun _ _ => pys "MA"⟩
        ⟨[pys "PF00001", pys "PF00002", pys "PF00003", pys "PF00004", pys "PF00005"],
          [1, 1, 1, 1, 1], [0], [1, 1, 1, 1, 1], false, fun _ _ => pys "MA"⟩).sliceLenA = 5
    ∧ ¬ (∃ p ∈ [5], (0 : ℤ) ≤ (p : ℤ) ∧ (p : ℤ) < 0 + 5) := by
  refine ⟨?_, ?_, ?_, ?_⟩
  · with_unfolding_all decide
  · with_unfolding_all decide
  · with_unfolding_all decide
  · decide


/-! Symmetry of the scorer (claim C7). -/

theorem computeRanges_global (A B : ClusterData) :
    computeRanges RunMode.global A B
      = fullRangeInfo A B (chooseOrientation (clusterTokens A) (clusterTokens B) B.dcg)
          (chooseOrientation (clusterTokens A) (clusterTokens B) B.dcg).startB := by
  simp only [computeRanges]
  rw [if_neg (by simp)]

theorem jaccardIndex_comm (s t : Finset PyStr) : jaccardIndex s t = jaccardIndex t s := by
  unfold jaccardIndex
  rw [Finset.inter_comm, Finset.union_comm]

theorem adjacencyIndex_comm (L1 L2 : List PyStr) :
    adjacencyIndex L1 L2 = adjacencyIndex L2 L1 := by
  unfold adjacencyIndex
  split_ifs with h1 h2 h2
  · rfl
  · exact absurd (Or.symm h1) h2
  · exact absurd (Or.symm h2) h1
  · rw [Finset.inter_comm, Finset.union_comm]

theorem sharedSeqDist_swap (A B : ClusterData) (r1 r2 : RangeInfo) (d : PyStr)
    (h1 : r2.Atop = r1.Btop) (h2 : r2.Abot = r1.Bbot)
    (h3 : r2.Btop = r1.Atop) (h4 : r2.Bbot = r1.Abot) :
    sharedSeqDist B A r2 d = sharedSeqDist A B r1 d := by
  simp only [sharedSeqDist, h1, h2, h3, h4]
  rw [abs_sub_comm]
  have hM : (fun i j => seqDist (B.aligned d (i + r1.Bbot d)) (A.aligned d (j + r1.Abot d)))
      = (fun i j => seqDist (A.aligned d (j + r1.Abot d)) (B.aligned d (i + r1.Bbot d))) := by
    funext i j
    exact seqDist_comm _ _
  rw [hM]
  exact congrArg (HAdd.hAdd _) (minAssignCost_flip _ _
    (fun i j => seqDist (A.aligned d (i + r1.Abot d)) (B.aligned d (j + r1.Bbot d))))

theorem dssSums_swap (anchors : List PyStr) (A B : ClusterData) (r1 r2 : RangeInfo)
    (hsA : r2.setA = r1.setB) (hsB : r2.setB = r1.setA)
    (h1 : r2.Atop = r1.Btop) (h2 : r2.Abot = r1.Bbot)
    (h3 : r2.Btop = r1.Atop) (h4 : r2.Bbot = r1.Abot)
    (hset : r1.setA = r1.setB) :
    dssSums anchors B A r2 = dssSums anchors A B r1 := by
  simp only [dssSums, hsA, hsB, h1, h2, h3, h4, hset, Finset.sdiff_self, Finset.union_self,
    Finset.inter_self, Finset.sum_empty, Nat.cast_zero, zero_add, Nat.zero_add]
  simp only [Prod.mk.injEq]
  refine ⟨?_, ?_, ?_, ?_⟩
  · apply Finset.sum_congr rfl
    intro d hd
    split_ifs
    · rfl
    · exact sharedSeqDist_swap A B r1 r2 d h1 h2 h3 h4
  · apply Finset.sum_congr rfl
    intro d hd
    split_ifs
    · exact sharedSeqDist_swap A B r1 r2 d h1 h2 h3 h4
    · rfl
  · apply congrArg
    funext d
    split_ifs
    · rfl
    · exact max_comm _ _
  · apply congrArg
    funext d
    split_ifs
    · exact max_comm _ _
    · rfl

/-- Claim C7 (counterexample): symmetry fails in general. For a pair sharing one
family where B has one extra family, the unshared contribution is always read from
the A-side `defaultdict` slices, so `score(A, B)` gives distance 3/20 while
`score(B, A)` gives 21/40 (DSS 1 versus 1/2), a gap far above 1e-6. -/
theorem cluster_distance_lcs_symm_counterexample :
    (cluster_distance_lcs RunMode.global [] ⟨20/100, 75/100, 5/100, 2⟩
        ⟨[pys "PF00001"], [1], [0], [1], false, fun _ _ => pys "MA"⟩
        ⟨[pys "PF00001", pys "PF00002"], [1, 1], [0], [1, 1], false,
          fun _ _ => pys "MA"⟩).distance = 3/20
    ∧ (cluster_distance_lcs RunMode.global [] ⟨20/100, 75/100, 5/100, 2⟩
        ⟨[pys "PF00001", pys "PF00002"], [1, 1], [0], [1, 1], false, fun _ _ => pys "MA"⟩
        ⟨[pys "PF00001"], [1], [0], [1], false, fun _ _ => pys "MA"⟩).distance = 21/40
    ∧ (cluster_distance_lcs RunMode.global [] ⟨20/100, 75/100, 5/100, 2⟩
        ⟨[pys "PF00001"], [1], [0], [1], false, fun _ _ => pys "MA"⟩
        ⟨[pys "PF00001", pys "PF00002"], [1, 1], [0], [1, 1], false,
          fun _ _ => pys "MA"⟩).dss = 1
    ∧ (cluster_distance_lcs RunMode.global [] ⟨20/100, 75/100, 5/100, 2⟩
        ⟨[pys "PF00001", pys "PF00002"], [1, 1], [0], [1, 1], false, fun _ _ => pys "MA"⟩
        ⟨[pys "PF00001"], [1], [0], [1], false, fun _ _ => pys "MA"⟩).dss = 1/2
    ∧ ¬ |(3/20 : ℚ) - 21/40| ≤ 1/1000000 := by
  refine ⟨?_, ?_, ?_, ?_, ?_⟩
  · with_unfolding_all decide
  · with_unfolding_all decide
  · with_unfolding_all decide
  · with_unfolding_all decide
  · with_unfolding_all decide

/-- Claim C7 (amended): in `global` mode, for clusters with equal (nonempty)
domain-family sets, the four scalar fields are exactly symmetric. -/
theorem cluster_distance_lcs_symm_global (anchors : List PyStr) (w : ClassWeights)
    (A B : ClusterData) (hset : A.domlist.toFinset = B.domlist.toFinset)
    (hne : A.domlist.toFinset.Nonempty) :
    (cluster_distance_lcs RunMode.global anchors w A B).distance
        = (cluster_distance_lcs RunMode.global anchors w B A).distance
    ∧ (cluster_distance_lcs RunMode.global anchors w A B).jaccard
        = (cluster_distance_lcs RunMode.global anchors w B A).jaccard
    ∧ (cluster_distance_lcs RunMode.global anchors w A B).dss
        = (cluster_distance_lcs RunMode.global anchors w B A).dss
    ∧ (cluster_distance_lcs RunMode.global anchors w A B).ai
        = (cluster_distance_lcs RunMode.global anchors w B A).ai := by
  have hdisjAB : ¬ (A.domlist.toFinset ∩ B.domlist.toFinset).card = 0 := by
    rw [← hset, Finset.inter_self]
    exact Finset.card_ne_zero.mpr hne
  have hdisjBA : ¬ (B.domlist.toFinset ∩ A.domlist.toFinset).card = 0 := by
    rw [Finset.inter_comm]
    exact hdisjAB
  obtain ⟨hjAB, hdAB, haAB, hrawAB, hclampAB, hnegAB⟩ :=
    cluster_distance_lcs_full_score_proj RunMode.global anchors w A B hdisjAB
  obtain ⟨hjBA, hdBA, haBA, hrawBA, hclampBA, hnegBA⟩ :=
    cluster_distance_lcs_full_score_proj RunMode.global anchors w B A hdisjBA
  have hjac : (cluster_distance_lcs_full RunMode.global anchors w A B).res.jaccard
      = (cluster_distance_lcs_full RunMode.global anchors w B A).res.jaccard := by
    rw [hjAB, hjBA, computeRanges_global A B, computeRanges_global B A]
    exact jaccardIndex_comm A.domlist.toFinset B.domlist.toFinset
  have hsums : dssSums anchors B A (computeRanges RunMode.global B A)
      = dssSums anchors A B (computeRanges RunMode.global A B) := by
    rw [computeRanges_global A B, computeRanges_global B A]
    exact dssSums_swap anchors A B _ _ rfl rfl rfl rfl rfl rfl hset
  have hdss : (cluster_distance_lcs_full RunMode.global anchors w A B).res.dss
      = (cluster_distance_lcs_full RunMode.global anchors w B A).res.dss := by
    rw [hdAB, hdBA, hsums]
  have hai : (cluster_distance_lcs_full RunMode.global anchors w A B).res.ai
      = (cluster_distance_lcs_full RunMode.global anchors w B A).res.ai := by
    rw [haAB, haBA, computeRanges_global A B, computeRanges_global B A]
    simp only [fullRangeInfo, Nat.sub_zero, List.drop_zero, List.take_length]
    exact adjacencyIndex_comm A.domlist B.domlist
  have hraw : (cluster_distance_lcs_full RunMode.global anchors w A B).rawDistance
      = (cluster_distance_lcs_full RunMode.global anchors w B A).rawDistance := by
    rw [hrawAB, hrawBA, hjac, hdss, hai]
  have hdist : (cluster_distance_lcs_full RunMode.global anchors w A B).res.distance
      = (cluster_distance_lcs_full RunMode.global anchors w B A).res.distance := by
    rw [hclampAB, hclampBA, hraw]
  exact ⟨hdist, hjac, hdss, hai⟩

/-- Witness for the amended claim C7: exact symmetry at a concrete pair with equal
domain-family sets listed in different orders. -/
theorem cluster_distance_lcs_symm_global_witness :
    (cluster_distance_lcs RunMode.global [] ⟨20/100, 75/100, 5/100, 2⟩
        ⟨[pys "PF00001", pys "PF00002"], [1, 1], [0], [1, 1], false, fun _ _ => pys "MA"⟩
        ⟨[pys "PF00002", pys "PF00001"], [1, 1], [0], [1, 1], false, fun _ _ => pys "MA"⟩).distance
      = (cluster_distance_lcs RunMode.global [] ⟨20/100, 75/100, 5/100, 2⟩
        ⟨[pys "PF00002", pys "PF00001"], [1, 1], [0], [1, 1], false, fun _ _ => pys "MA"⟩
        ⟨[pys "PF00001", pys "PF00002"], [1, 1], [0], [1, 1], false, fun _ _ => pys "MA"⟩).distance :=
  (cluster_distance_lcs_symm_global [] ⟨20/100, 75/100, 5/100, 2⟩
    ⟨[pys "PF00001", pys "PF00002"], [1, 1], [0], [1, 1], false, fun _ _ => pys "MA"⟩
    ⟨[pys "PF00002", pys "PF00001"], [1, 1], [0], [1, 1], false, fun _ _ => pys "MA"⟩
    (by decide) (by decide)).1

end BigScape
